import Mathlib

/-!
Verification of the batch-generator core of DLWP-CS (`DLWP/model/generators.py`),
centred on the `SeriesDataGenerator` class.

Shallow embedding conventions:
* A data value is `Option Int`: `none` models a NaN entry, `some v` a real number
  (only NaN-ness and placement of values matter to the verified properties).
* A per-sample observation (one slice of the underlying labelled array along the
  `sample` axis, flattened) is a `Row`; a 2-D numpy array is a `Mat` (list of rows).
* The labelled arrays `input_da`, `output_da`, `insolation_da` are functions
  from sample index to `Row`.
* Python integers are `Int` where sign matters (the derived `_n_sample` can be
  negative), `Nat` elsewhere.
* The external model collaborator (scaler / imputer) is a pair of functions on
  matrices, universally quantified in theorems; its contract (shape preservation)
  becomes an explicit hypothesis.
* `np.reshape` is modelled with its real legality check (element-count match);
  a failing reshape, like a raised Python exception, is `Except.error`.
-/

/-- One scalar cell of a numpy array; `none` models NaN. -/
abbrev Val := Option Int

/-- One flattened per-sample observation. -/
abbrev Row := List Val

/-- A 2-D array: one `Row` per sample. -/
abbrev Mat := List Row

/-- True when the row contains a NaN anywhere. -/
def hasNan (r : Row) : Bool := r.any (fun v => v.isNone)

/-- Modelled from the spec: `delete_nan_samples` (imported from `DLWP.util`, whose
source is not in the repository snapshot): drop any sample (row) where either the
predictor or the target contains a NaN anywhere; predictor and target arrays are
filtered jointly to keep correspondence, operating on flattened-per-sample rows. -/
def delete_nan_samples (p t : Mat) : Mat × Mat :=
  let kept := (p.zip t).filter (fun pt => !(hasNan pt.1) && !(hasNan pt.2))
  (kept.map Prod.fst, kept.map Prod.snd)

/-- Python list slice `l[-n:]` for `n ≥ 1` (used for `shape[-rank:]`). -/
def lastN (n : Nat) (l : List Nat) : List Nat := l.drop (l.length - n)

/-- Python list slice `l[:-n]` for `n ≥ 1` (used for `shape[:-rank]`). -/
def dropLastN (n : Nat) (l : List Nat) : List Nat := l.take (l.length - n)

/-- Normalization of one python slice bound against a list of length `L`:
negative bounds count from the end, then the bound is clamped to `[0, L]`. -/
def pySliceIdx (L : Nat) (a : Int) : Nat :=
  let a' := if a < 0 then a + L else a
  if a' < 0 then 0 else min a'.toNat L

/-- Python slice `xs[a:b]` with full negative-index and clamping semantics. -/
def pySlice {α : Type} (xs : List α) (a b : Int) : List α :=
  (xs.take (pySliceIdx xs.length b)).drop (pySliceIdx xs.length a)

/-- `int(np.ceil(n / b))` for integer `n` and positive integer `b`: the exact
ceiling of the rational `n / b` (the float division is exact at the magnitudes
involved, and `np.ceil` of an integral float is that integer). -/
def npCeil (n b : Int) : Int := -((-n) / b)

/-- Static configuration of a `SeriesDataGenerator`, as captured on `self` by
`__init__` (lines 373-451): window parameters, layout flags copied from the model
collaborator (`is_convolutional`, `is_recurrent`), and the per-sample trailing
shapes of the two label-selected views (`input_da.shape[1:]`, `output_da.shape[1:]`)
plus the insolation array's trailing shape. `addInsolation` is the integer
`_add_insolation` flag (`1 if isinstance(add_insolation, str) else int(add_insolation)`). -/
structure SeriesConfig where
  totalSamples : Nat
  inputShapeTail : List Nat
  outputShapeTail : List Nat
  insolShapeTail : List Nat
  rank : Nat
  inputTimeSteps : Nat
  outputTimeSteps : Nat
  sequence : Option Nat
  interval : Nat
  addInsolation : Nat
  batchSize : Nat
  removeNan : Bool
  isConvolutional : Bool
  keepTimeAxis : Bool
  deriving DecidableEq, Repr

namespace SeriesConfig

/-- `self._n_sample` (lines 410-413): two branches exactly as in the source. -/
def nSampleInt (c : SeriesConfig) : Int :=
  match c.sequence with
  | some seq =>
      (c.totalSamples : Int) - c.inputTimeSteps - c.outputTimeSteps * seq + 2 - c.interval
  | none =>
      (c.totalSamples : Int) - c.inputTimeSteps - c.outputTimeSteps + 2 - c.interval

/-- Modelled from the spec: the unified sample-count formula
`total_samples - input_time_steps - output_time_steps*(sequence or 1) + 2 - interval`,
with python truthiness for `sequence or 1` (a `None` or `0` sequence yields 1). -/
def nSampleSpec (c : SeriesConfig) : Int :=
  (c.totalSamples : Int) - c.inputTimeSteps -
    c.outputTimeSteps * (match c.sequence with
                         | none => 1
                         | some q => if q = 0 then 1 else (q : Int)) + 2 - c.interval

/-- The number of valid start offsets actually used for indexing
(`np.arange(self._n_sample)` is empty for a negative count). -/
def nSampleNat (c : SeriesConfig) : Nat := c.nSampleInt.toNat

/-- `__len__` (lines 697-701): `int(np.ceil(self._n_sample / self._batch_size))`. -/
def seriesLenInt (c : SeriesConfig) : Int := npCeil c.nSampleInt c.batchSize

/-- The batch count as a natural number. -/
def seriesLenNat (c : SeriesConfig) : Nat := c.seriesLenInt.toNat

/-- `self.shape` (lines 484-489): `(input_time_steps,) + input_da.shape[1:]`. -/
def shape (c : SeriesConfig) : List Nat := c.inputTimeSteps :: c.inputShapeTail

/-- `input_da.shape`: sample axis first, then the trailing dims. -/
def inputDaShape (c : SeriesConfig) : List Nat := c.totalSamples :: c.inputShapeTail

/-- `output_da.shape`. -/
def outputDaShape (c : SeriesConfig) : List Nat := c.totalSamples :: c.outputShapeTail

/-- `self.n_features` (lines 491-497):
`prod(shape) + prod(shape[-rank:]) * input_time_steps * _add_insolation`. -/
def n_features (c : SeriesConfig) : Nat :=
  c.shape.prod + (lastN c.rank c.shape).prod * c.inputTimeSteps * c.addInsolation

/-- `self.dense_shape` (lines 499-508). -/
def denseShape (c : SeriesConfig) : List Nat :=
  if c.keepTimeAxis then
    [c.shape.headD 0, c.n_features / c.shape.headD 0]
  else
    [c.n_features]

/-- `self.convolution_shape` (lines 510-521). Recurrent branch:
`(input_time_steps,) + (prod(shape[1:-rank]) + _add_insolation,) + shape[-rank:]`;
non-recurrent branch:
`(prod(shape[:-rank]) + input_time_steps*_add_insolation,) + input_da.shape[-rank:]`. -/
def convolutionShape (c : SeriesConfig) : List Nat :=
  if c.keepTimeAxis then
    c.inputTimeSteps :: ((dropLastN c.rank c.inputShapeTail).prod + c.addInsolation) ::
      lastN c.rank c.shape
  else
    ((dropLastN c.rank c.shape).prod + c.inputTimeSteps * c.addInsolation) ::
      lastN c.rank c.inputDaShape

/-- The channel entry of `convolution_shape`: index 1 with a time axis, 0 without. -/
def convChannelDim (c : SeriesConfig) : Nat :=
  (c.convolutionShape).getD (if c.keepTimeAxis then 1 else 0) 0

/-- `self.shape_2d` (lines 523-534) as an explicit state-passing function: the
source temporarily sets `self._keep_time_axis = False`, reads `convolution_shape`,
restores the flag, and returns the tuple; the second component is the
configuration after the property read. -/
def shape2dRun (c : SeriesConfig) : List Nat × SeriesConfig :=
  if c.keepTimeAxis then
    let c1 := { c with keepTimeAxis := false }
    let s := c1.convolutionShape
    let c2 := { c1 with keepTimeAxis := true }
    (s, c2)
  else
    (c.convolutionShape, c)

/-- `self.output_shape` (lines 536-541). -/
def outputShape (c : SeriesConfig) : List Nat := c.outputTimeSteps :: c.outputShapeTail

/-- `self.output_n_features` (lines 543-548). -/
def output_n_features (c : SeriesConfig) : Nat := c.outputShape.prod

/-- `self.output_dense_shape` (lines 550-559). -/
def outputDenseShape (c : SeriesConfig) : List Nat :=
  if c.keepTimeAxis then
    [c.outputShape.headD 0, c.output_n_features / c.outputShape.headD 0]
  else
    [c.output_n_features]

/-- `self.output_convolution_shape` (lines 561-571); never adds insolation. -/
def outputConvolutionShape (c : SeriesConfig) : List Nat :=
  if c.keepTimeAxis then
    c.outputTimeSteps :: (dropLastN c.rank c.outputShapeTail).prod ::
      lastN c.rank c.outputShape
  else
    (dropLastN c.rank c.outputShape).prod :: lastN c.rank c.outputDaShape

/-- `self.output_shape_2d` (lines 573-584), state-passing like `shape2dRun`. -/
def outputShape2dRun (c : SeriesConfig) : List Nat × SeriesConfig :=
  if c.keepTimeAxis then
    let c1 := { c with keepTimeAxis := false }
    let s := c1.outputConvolutionShape
    let c2 := { c1 with keepTimeAxis := true }
    (s, c2)
  else
    (c.outputConvolutionShape, c)

/-- `self.insolation_shape` (lines 586-593). -/
def insolationShape (c : SeriesConfig) : List Nat :=
  c.inputTimeSteps :: 1 :: lastN c.rank c.convolutionShape

/-- `on_epoch_end` without shuffling (lines 595-598): `np.arange(self._n_sample)`.
A shuffled epoch is modelled in theorems as an arbitrary permutation of this list. -/
def initIndices (c : SeriesConfig) : List Nat := List.range c.nSampleNat

end SeriesConfig

open SeriesConfig

/-- Ceiling characterization of `npCeil`: for positive `b`,
`n ≤ b * npCeil n b < n + b`. -/
theorem npCeil_spec (n b : Int) (hb : 0 < b) :
    n ≤ b * npCeil n b ∧ b * npCeil n b < n + b := by
  have hbne : b ≠ 0 := ne_of_gt hb
  have hed := Int.ediv_add_emod (-n) b
  have hr0 : 0 ≤ (-n) % b := Int.emod_nonneg (-n) hbne
  have hrb : (-n) % b < b := Int.emod_lt_of_pos (-n) hb
  have hmul : b * npCeil n b = n + (-n) % b := by
    unfold npCeil
    have : b * -((-n) / b) = -(b * ((-n) / b)) := by ring
    rw [this]
    omega
  omega

/-- For a nonnegative sample count, `seriesLenInt` is the natural ceiling
`(n + b - 1) / b` cast to `Int`. -/
theorem seriesLenInt_eq_natCeil (c : SeriesConfig) (hn : 0 ≤ c.nSampleInt)
    (hb : 0 < c.batchSize) :
    c.seriesLenInt = ((c.nSampleNat + c.batchSize - 1) / c.batchSize : Nat) := by
  have hbZ : (0 : Int) < (c.batchSize : Int) := by exact_mod_cast hb
  show npCeil c.nSampleInt c.batchSize = _
  obtain ⟨h1, h2⟩ := npCeil_spec c.nSampleInt c.batchSize hbZ
  have hcast : (c.nSampleNat : Int) = c.nSampleInt := Int.toNat_of_nonneg hn
  set X : Nat := c.nSampleNat + c.batchSize - 1 with hXdef
  have hdm := Nat.div_add_mod X c.batchSize
  have hmlt := Nat.mod_lt X hb
  set L : Int := npCeil c.nSampleInt c.batchSize with hL
  set D : Nat := X / c.batchSize with hD
  set M : Nat := X % c.batchSize with hM
  have hdmZ : (c.batchSize : Int) * (D : Int) + (M : Int) = (X : Int) := by
    exact_mod_cast hdm
  have hX : (X : Int) = c.nSampleInt + c.batchSize - 1 := by
    have hb1 : 1 ≤ c.batchSize := hb
    omega
  have hMb : (M : Int) < (c.batchSize : Int) := by exact_mod_cast hmlt
  have hM0 : (0 : Int) ≤ (M : Int) := by positivity
  -- both b*D and b*L lie in [n, n+b-1]; their difference is a multiple of b
  have hring : (c.batchSize : Int) * ((D : Int) - L) =
      (c.batchSize : Int) * (D : Int) - (c.batchSize : Int) * L := by ring
  have hgoal : (D : Int) = L := by
    by_contra hne
    rcases lt_or_gt_of_ne hne with hlt | hgt
    · have h3 : (D : Int) - L ≤ -1 := by omega
      have h4 : (c.batchSize : Int) * ((D : Int) - L) ≤ (c.batchSize : Int) * (-1) :=
        mul_le_mul_of_nonneg_left h3 (le_of_lt hbZ)
      have h5 : (c.batchSize : Int) * (-1 : Int) = -(c.batchSize : Int) := by ring
      omega
    · have h3 : (1 : Int) ≤ (D : Int) - L := by omega
      have h4 : (c.batchSize : Int) * 1 ≤ (c.batchSize : Int) * ((D : Int) - L) :=
        mul_le_mul_of_nonneg_left h3 (le_of_lt hbZ)
      have h5 : (c.batchSize : Int) * (1 : Int) = (c.batchSize : Int) := by ring
      omega
  omega

/-- The batch count as a `Nat` equals the ceiling division of the sample count. -/
theorem seriesLenNat_eq (c : SeriesConfig) (hn : 0 ≤ c.nSampleInt) (hb : 0 < c.batchSize) :
    c.seriesLenNat = (c.nSampleNat + c.batchSize - 1) / c.batchSize := by
  have h := seriesLenInt_eq_natCeil c hn hb
  unfold seriesLenNat
  rw [h]
  exact Int.toNat_natCast _

/-- C1: for every `SeriesDataGenerator` configuration (with the constructor's
assertions `batch_size > 0` and `sequence > 0` when given), the stored sample count
follows the unified formula `total - input_time_steps - output_time_steps*(sequence
or 1) + 2 - interval`, and the generator's length is the ceiling of `n_sample /
batch_size`: `b*len` is the least multiple of `b` at or above `n_sample`. -/
theorem c1_len_is_ceil_of_n_sample (c : SeriesConfig) (hb : 0 < c.batchSize)
    (hseq : ∀ q, c.sequence = some q → 0 < q) :
    c.nSampleInt = c.nSampleSpec ∧
    c.seriesLenInt = npCeil c.nSampleSpec c.batchSize ∧
    c.nSampleInt ≤ (c.batchSize : Int) * c.seriesLenInt ∧
    (c.batchSize : Int) * c.seriesLenInt < c.nSampleInt + c.batchSize := by
  have hbZ : (0 : Int) < (c.batchSize : Int) := by exact_mod_cast hb
  have hform : c.nSampleInt = c.nSampleSpec := by
    unfold SeriesConfig.nSampleInt SeriesConfig.nSampleSpec
    cases hs : c.sequence with
    | none => simp
    | some q =>
        have hq : 0 < q := hseq q hs
        have : ¬(q = 0) := Nat.pos_iff_ne_zero.mp hq
        simp [this]
  refine ⟨hform, ?_, ?_, ?_⟩
  · unfold SeriesConfig.seriesLenInt
    rw [hform]
  · exact (npCeil_spec c.nSampleInt c.batchSize hbZ).1
  · exact (npCeil_spec c.nSampleInt c.batchSize hbZ).2

/-- Concrete configuration of the spec scenario: 100 samples, 2 input steps,
1 output step, interval 1, no sequence, batch size 32. -/
def cfgC1 : SeriesConfig :=
  { totalSamples := 100, inputShapeTail := [1], outputShapeTail := [1],
    insolShapeTail := [1], rank := 1, inputTimeSteps := 2, outputTimeSteps := 1,
    sequence := none, interval := 1, addInsolation := 0, batchSize := 32,
    removeNan := true, isConvolutional := false, keepTimeAxis := false }

/-- C1 witness: on the concrete scenario the hypotheses hold, `n_sample = 98`
and `len(generator) = 4`. -/
theorem c1_len_is_ceil_of_n_sample_witness :
    0 < cfgC1.batchSize ∧ cfgC1.seriesLenInt = npCeil cfgC1.nSampleSpec cfgC1.batchSize ∧
    cfgC1.nSampleInt = 98 ∧ cfgC1.seriesLenInt = 4 := by
  refine ⟨by decide, ?_, by decide, by decide⟩
  exact (c1_len_is_ceil_of_n_sample cfgC1 (by decide) (by intro q hq; cases hq)).2.1

/-- C9: reading `shape_2d` (and `output_shape_2d`) returns the convolution shape
computed as if the time axis were collapsed, and restores the recurrent flag, so
the configuration after the read equals the one before and subsequent shape reads
are unaffected. -/
theorem c9_shape2d_toggle_restore (c : SeriesConfig) :
    (shape2dRun c).1 = SeriesConfig.convolutionShape { c with keepTimeAxis := false } ∧
    (shape2dRun c).2 = c ∧
    (outputShape2dRun c).1 =
      SeriesConfig.outputConvolutionShape { c with keepTimeAxis := false } ∧
    (outputShape2dRun c).2 = c ∧
    SeriesConfig.convolutionShape (shape2dRun c).2 = c.convolutionShape ∧
    SeriesConfig.denseShape (shape2dRun c).2 = c.denseShape := by
  have hfold : { c with keepTimeAxis := c.keepTimeAxis } = c := rfl
  by_cases hk : c.keepTimeAxis
  · have h1 : { c with keepTimeAxis := true } = c := by rw [← hk]
    simp [shape2dRun, outputShape2dRun, hk, h1]
  · have h0 : { c with keepTimeAxis := false } = c := by
      have hkf : c.keepTimeAxis = false := by simpa using hk
      rw [← hkf]
    simp [shape2dRun, outputShape2dRun, hk, h0]

/-- Base configuration for the C4 counterexample: non-recurrent layout with two
input time steps and feature dims (3,) over a 4x5 spatial grid. -/
def cfgC4 : SeriesConfig :=
  { totalSamples := 50, inputShapeTail := [3, 4, 5], outputShapeTail := [3, 4, 5],
    insolShapeTail := [4, 5], rank := 2, inputTimeSteps := 2, outputTimeSteps := 1,
    sequence := none, interval := 1, addInsolation := 0, batchSize := 32,
    removeNan := true, isConvolutional := true, keepTimeAxis := false }

/-- C4 counterexample: with insolation enabled in the non-recurrent layout and
`input_time_steps = 2`, the channel dimension of `convolution_shape` is 8, while
the same configuration without insolation has 6 channels — the increment is the
number of input time steps (2), not exactly 1 as the claim states. -/
theorem c4_counterexample :
    convChannelDim { cfgC4 with addInsolation := 1 } = 8 ∧
    convChannelDim cfgC4 = 6 ∧ cfgC4.addInsolation = 0 ∧
    convChannelDim { cfgC4 with addInsolation := 1 } ≠ convChannelDim cfgC4 + 1 := by
  decide

/-- C4 amended: enabling insolation increases the channel dimension of
`convolution_shape` by exactly 1 in the recurrent (time-axis) layout, and by
exactly `input_time_steps` in the non-recurrent layout (hence by exactly 1 there
only when `input_time_steps = 1`). -/
theorem c4_amended_channel_increment (c : SeriesConfig) :
    convChannelDim { c with addInsolation := 1 } =
      convChannelDim { c with addInsolation := 0 } +
        (if c.keepTimeAxis then 1 else c.inputTimeSteps) := by
  unfold SeriesConfig.convChannelDim SeriesConfig.convolutionShape
  by_cases hk : c.keepTimeAxis <;>
    simp [hk, List.getD, SeriesConfig.shape, SeriesConfig.inputDaShape]

/-- The external collaborators of one `SeriesDataGenerator`: the three
label-selected data arrays, sample index to flattened row. -/
structure SeriesData where
  inputDa : Nat → Row
  outputDa : Nat → Row
  insolDa : Nat → Row

/-- Target gather index in sequence mode (`generate`, lines 643-645):
`samples + input_time_steps + interval - 1 + output_time_steps*s + n`,
evaluated left to right as in python. -/
def targetIndex (c : SeriesConfig) (s j n : Nat) : Nat :=
  s + c.inputTimeSteps + c.interval - 1 + c.outputTimeSteps * j + n

/-- Target gather index in non-sequence mode (`generate`, lines 671-673):
`samples + input_time_steps + n + interval - 1`. -/
def targetIndexNonSeq (c : SeriesConfig) (s n : Nat) : Nat :=
  s + c.inputTimeSteps + n + c.interval - 1

/-- Predictor gather (`generate`, lines 612-613):
`np.concatenate([input_da.values[samples + n, np.newaxis] for n in
range(input_time_steps)], axis=1)` produces the 3-D array whose `[i, n]` slice is
the observation at sample `samples[i] + n`. -/
def gatherInput (d : SeriesData) (c : SeriesConfig) (samples : List Nat) :
    List (List Row) :=
  samples.map (fun s => (List.range c.inputTimeSteps).map (fun k => d.inputDa (s + k)))

/-- Insolation gather for sequence step `j` (`generate`, lines 624-634): indices
`samples + input_time_steps*j + n` for `n < input_time_steps` (with `j = 0` in
non-sequence mode). -/
def gatherInsol (d : SeriesData) (c : SeriesConfig) (samples : List Nat) (j : Nat) :
    List (List Row) :=
  samples.map (fun s =>
    (List.range c.inputTimeSteps).map (fun k => d.insolDa (s + c.inputTimeSteps * j + k)))

/-- Target gather for sequence step `j` (`generate`, lines 643-645). -/
def gatherTarget (d : SeriesData) (c : SeriesConfig) (samples : List Nat) (j : Nat) :
    List (List Row) :=
  samples.map (fun s =>
    (List.range c.outputTimeSteps).map (fun k => d.outputDa (targetIndex c s j k)))

/-- Target gather in non-sequence mode (`generate`, lines 671-673). -/
def gatherTargetNonSeq (d : SeriesData) (c : SeriesConfig) (samples : List Nat) :
    List (List Row) :=
  samples.map (fun s =>
    (List.range c.outputTimeSteps).map (fun k => d.outputDa (targetIndexNonSeq c s k)))

/-- C3: for every requested start offset `s` the target window gathers the
observations at absolute samples `(s + input_time_steps + interval - 1) + n` for
`n = 0, …, output_time_steps-1`, in chronological order; in sequence mode the
window start of repetition `j` is advanced by `output_time_steps` per repetition,
and the non-sequence gather coincides with sequence step 0. -/
theorem c3_target_window (c : SeriesConfig) (d : SeriesData) (samples : List Nat)
    (j : Nat) (hint : 1 ≤ c.interval) :
    (∀ s k, ((targetIndex c s j k : Nat) : Int) =
        (s : Int) + c.inputTimeSteps + c.interval - 1 + c.outputTimeSteps * j + k) ∧
    (∀ s n, targetIndex c s (j + 1) n = targetIndex c s j n + c.outputTimeSteps) ∧
    gatherTargetNonSeq d c samples = gatherTarget d c samples 0 ∧
    gatherTarget d c samples j = samples.map (fun s =>
      (List.range c.outputTimeSteps).map (fun n => d.outputDa (targetIndex c s j n))) := by
  refine ⟨?_, ?_, ?_, rfl⟩
  · intro s k
    unfold targetIndex
    have hm : ((c.outputTimeSteps * j : Nat) : Int) =
        (c.outputTimeSteps : Int) * (j : Int) := by push_cast; ring
    omega
  · intro s n
    unfold targetIndex
    have hm : c.outputTimeSteps * (j + 1) = c.outputTimeSteps * j + c.outputTimeSteps :=
      Nat.mul_succ _ _
    omega
  · unfold gatherTargetNonSeq gatherTarget
    apply List.map_congr_left
    intro s _
    apply List.map_congr_left
    intro n _
    congr 1
    unfold targetIndex targetIndexNonSeq
    have hm : c.outputTimeSteps * 0 = 0 := Nat.mul_zero _
    omega

/-- Concrete configuration for the C3 witness. -/
def cfgC3 : SeriesConfig :=
  { totalSamples := 20, inputShapeTail := [1], outputShapeTail := [1],
    insolShapeTail := [1], rank := 1, inputTimeSteps := 2, outputTimeSteps := 2,
    sequence := some 3, interval := 1, addInsolation := 0, batchSize := 4,
    removeNan := false, isConvolutional := false, keepTimeAxis := false }

/-- Concrete data for the C3 witness: the observation at sample `i` is `[i]`. -/
def dataC3 : SeriesData :=
  { inputDa := fun i => [some i], outputDa := fun i => [some i],
    insolDa := fun i => [some i] }

/-- C3 witness: at `s = 5`, sequence step 1, `input_time_steps = 2`,
`output_time_steps = 2`, `interval = 1`, the first gathered target index is the
integer `5 + 2 + 1 - 1 + 2*1 + 0 = 9` (window start `7` advanced by one
repetition of `output_time_steps = 2`). -/
theorem c3_target_window_witness :
    1 ≤ cfgC3.interval ∧
    ((targetIndex cfgC3 5 1 0 : Nat) : Int) =
      (5 : Int) + cfgC3.inputTimeSteps + cfgC3.interval - 1 +
        cfgC3.outputTimeSteps * 1 + 0 :=
  ⟨by decide, (c3_target_window cfgC3 dataC3 [5] 1 (by decide)).1 5 0⟩

/-- One produced numpy tensor: its shape and flattened (row-major) data. -/
structure NDArr where
  shape : List Nat
  data : List Val
  deriving DecidableEq, Repr

/-- Result of `SeriesDataGenerator.generate`: the primary predictor tensor, the
extra insolation-only input tensors (`insol[1:]`, nonempty only in sequence mode
with insolation, line 668-669), and the target tensors (a single element unless
sequence mode). -/
structure GenResult where
  p : NDArr
  pExtra : List NDArr
  targets : List NDArr
  deriving DecidableEq, Repr

/-- The model collaborator consumed by the generator: its `impute` flag and the
`imputer_transform` / `scaler_transform` methods, acting on the per-sample rows
of the flattened `(n_sample, features)` arrays. -/
structure ModelTransforms where
  imputeMissing : Bool
  imputerT : Mat → Mat → Mat × Mat
  scalerT : Mat → Mat → Mat × Mat

/-- Lines 652-655 / 680-683: when `scale_and_impute` is requested, apply the
imputer (if the model declares imputation) then the scaler; otherwise pass
through unchanged. -/
def applyScaleImpute (m : ModelTransforms) (sai : Bool) (p t : Mat) : Mat × Mat :=
  if sai then
    let pt := if m.imputeMissing then m.imputerT p t else (p, t)
    m.scalerT pt.1 pt.2
  else (p, t)

/-- Split a flat value list into `n` chunks of width `k`: the first-axis rows of
`np.reshape((n, ...))` in row-major order. -/
def chunkRows (flat : List Val) (n k : Nat) : Mat :=
  (List.range n).map (fun i => (flat.drop (i * k)).take k)

/-- `arr.reshape((n,) + tail)` of a row matrix, with numpy's element-count
legality check; a failing reshape raises, modelled as `Except.error`. -/
def npReshapeRows (m : Mat) (n : Nat) (tail : List Nat) : Except String Mat :=
  if m.flatten.length = n * tail.prod then .ok (chunkRows m.flatten n tail.prod)
  else .error "cannot reshape"

/-- A 2-D array as an `NDArr`: shape `(rows, row_width)`. -/
def from2D (m : Mat) : NDArr := ⟨[m.length, (m.headD []).length], m.flatten⟩

/-- Lines 656-663 / 685-691: format the flat pair for the model's layout.
Convolutional models reshape `p` to `(n,) + convolution_shape` and `t` to
`(n,) + output_convolution_shape`; recurrent non-convolutional models use the
dense shapes; otherwise the arrays stay flat.  Returns the reshaped predictor
rows (reused by the next sequence iteration) and the target tensor. -/
def formatPair (c : SeriesConfig) (n : Nat) (p t : Mat) : Except String (Mat × NDArr) :=
  if c.isConvolutional then
    match npReshapeRows p n c.convolutionShape,
          npReshapeRows t n c.outputConvolutionShape with
    | .ok pr, .ok tr => .ok (pr, ⟨n :: c.outputConvolutionShape, tr.flatten⟩)
    | .error e, _ => .error e
    | _, .error e => .error e
  else if c.keepTimeAxis then
    match npReshapeRows p n c.denseShape, npReshapeRows t n c.outputDenseShape with
    | .ok pr, .ok tr => .ok (pr, ⟨n :: c.outputDenseShape, tr.flatten⟩)
    | .error e, _ => .error e
    | _, .error e => .error e
  else .ok (p, from2D t)

/-- The predictor tensor as returned: the last formatting applied to `p`
(its shape is `(n,) + convolution_shape` / `(n,) + dense_shape` / flat 2-D). -/
def packP (c : SeriesConfig) (n : Nat) (p : Mat) : NDArr :=
  if c.isConvolutional then ⟨n :: c.convolutionShape, p.flatten⟩
  else if c.keepTimeAxis then ⟨n :: c.denseShape, p.flatten⟩
  else from2D p

/-- Lines 614-636: after reshaping `p` to `(n,) + conv_shape(no insolation,
keep time)`, concatenating the step-aligned insolation block on the channel axis
(axis 2) and flattening back to `(n, -1)` makes each sample row list, per time
step, the step's `C*S` data values followed by the step's `S` insolation values. -/
def mergeInsol (steps stepLen : Nat) (p : Mat) (block : List (List Row)) : Mat :=
  (p.zip block).map (fun pr =>
    (List.range steps).flatMap (fun k =>
      ((pr.1.drop (k * stepLen)).take stepLen) ++ (pr.2.getD k [])))

/-- One NaN-removal plus impute/scale stage (lines 649-655 and 677-683): jointly
drop NaN rows when `remove_nan` is set, then optionally impute and scale. -/
def seqStep (c : SeriesConfig) (m : ModelTransforms) (sai : Bool) (p t0 : Mat) :
    Mat × Mat :=
  let pt1 := if c.removeNan then delete_nan_samples p t0 else (p, t0)
  applyScaleImpute m sai pt1.1 pt1.2

/-- The sequence-mode loop of `generate` (lines 640-665): for each forecast step
`j`, gather and flatten the target window, jointly remove NaN rows, apply the
optional impute/scale, format for the model layout (mutating `p` exactly as the
source reassigns it), and collect the target tensors in ascending horizon order. -/
def seqLoop (c : SeriesConfig) (d : SeriesData) (m : ModelTransforms) (sai : Bool)
    (samples : List Nat) (n : Nat) :
    Nat → Nat → Mat → Except String (Mat × List NDArr)
  | _, 0, p => .ok (p, [])
  | j, rem + 1, p =>
    match formatPair c n
        (seqStep c m sai p ((gatherTarget d c samples j).map List.flatten)).1
        (seqStep c m sai p ((gatherTarget d c samples j).map List.flatten)).2 with
    | .error e => .error e
    | .ok prt =>
      match seqLoop c d m sai samples n (j + 1) rem prt.1 with
      | .error e => .error e
      | .ok pfts => .ok (pfts.1, prt.2 :: pfts.2)

/-- Lines 614-634: the per-sequence-step insolation blocks gathered by
`generate` (block `j` shifted by `input_time_steps * j`); empty when insolation
is disabled, a single block when `sequence` is not set. -/
def insolBlocksOf (c : SeriesConfig) (d : SeriesData) (samples : List Nat) :
    List (List (List Row)) :=
  if c.addInsolation ≠ 0 then
    match c.sequence with
    | some q => (List.range q).map (fun j => gatherInsol d c samples j)
    | none => [gatherInsol d c samples 0]
  else []

/-- Lines 612-637: assemble the flat predictor matrix: gather the input windows,
flatten per sample, and — when insolation is enabled — reshape to the
no-insolation keep-time convolution shape (with numpy's legality check) and
concatenate the first insolation block on the channel axis. -/
def assembleP (c : SeriesConfig) (d : SeriesData) (samples : List Nat) :
    Except String Mat :=
  let p0 : Mat := (gatherInput d c samples).map List.flatten
  if c.addInsolation ≠ 0 then
    let shp := SeriesConfig.convolutionShape
      { c with addInsolation := 0, keepTimeAxis := true }
    if p0.flatten.length = samples.length * shp.prod then
      .ok (mergeInsol c.inputTimeSteps (shp.drop 1).prod p0
        ((insolBlocksOf c d samples).headD []))
    else .error "cannot reshape"
  else .ok p0

/-- `SeriesDataGenerator.generate` (lines 605-695) after the sample-selector
normalization: the pipeline applied to a concrete list of start offsets. -/
def seriesGenerateCore (c : SeriesConfig) (d : SeriesData) (m : ModelTransforms)
    (samples : List Nat) (sai : Bool) : Except String GenResult :=
  let n := samples.length
  match assembleP c d samples with
  | .error e => .error e
  | .ok pFlat =>
    let extras : List NDArr := ((insolBlocksOf c d samples).drop 1).map (fun blk =>
      ⟨[n, c.inputTimeSteps, 1] ++ c.insolShapeTail, (blk.map List.flatten).flatten⟩)
    match c.sequence with
    | none =>
      -- lines 671-693
      match formatPair c n
          (seqStep c m sai pFlat ((gatherTargetNonSeq d c samples).map List.flatten)).1
          (seqStep c m sai pFlat ((gatherTargetNonSeq d c samples).map List.flatten)).2 with
      | .error e => .error e
      | .ok prt => .ok ⟨packP c n prt.1, [], [prt.2]⟩
    | some q =>
      -- lines 640-669
      match seqLoop c d m sai samples n 0 q pFlat with
      | .error e => .error e
      | .ok pfts =>
        .ok ⟨packP c n pfts.1, (if c.addInsolation ≠ 0 then extras else []), pfts.2⟩

/-- `SeriesDataGenerator.generate` (lines 600-695): lines 601-604 make an empty
index selector mean all `n_sample` valid offsets, then the pipeline runs. -/
def seriesGenerate (c : SeriesConfig) (d : SeriesData) (m : ModelTransforms)
    (samples0 : List Nat) (sai : Bool) : Except String GenResult :=
  seriesGenerateCore c d m
    (if samples0.length = 0 then List.range c.nSampleNat else samples0) sai

/-- `self._indices[index * self._batch_size:(index + 1) * self._batch_size]`
(line 714): the index slice of batch `idx` out of the current epoch ordering.
In `__getitem__` a negative index is first shifted once by the length, the guard
raises only when the shifted index strictly exceeds the length, and the batch is
generated with scaling enabled. -/
def batchIndexes (indices : List Nat) (bs : Nat) (idx : Int) : List Nat :=
  pySlice indices (idx * bs) ((idx + 1) * bs)

/-- `__getitem__` (lines 703-718), with the current epoch ordering `indices` as
explicit state (see the doc comment above `batchIndexes`). -/
def seriesGetitem (c : SeriesConfig) (d : SeriesData) (m : ModelTransforms)
    (indices : List Nat) (index : Int) : Except String GenResult :=
  let len := c.seriesLenInt
  let idx := if index < 0 then len + index else index
  if idx > len then .error "IndexError"
  else
    seriesGenerate c d m (batchIndexes indices c.batchSize idx) true

/-- First dimension of the returned predictor tensor, if a batch was returned. -/
def resultPFirstDim : Except String GenResult → Option Nat
  | .ok r => some (r.p.shape.headD 0)
  | .error _ => none

/-- Shape of the returned predictor tensor, if a batch was returned. -/
def resultPShape : Except String GenResult → Option (List Nat)
  | .ok r => some r.p.shape
  | .error _ => none

/-- First dimensions of the returned predictor and of every target tensor. -/
def resultFirstDims : Except String GenResult → Option (Nat × List Nat)
  | .ok r => some (r.p.shape.headD 0, r.targets.map (fun a => a.shape.headD 0))
  | .error _ => none

/-- A python value as passed for the `load` argument. -/
inductive PyVal where
  | pyBool (b : Bool)
  | pyStr (s : String)
  | pyNone
  | pyInt (n : Int)
  deriving DecidableEq, Repr

/-- Python truthiness (`not(not load)` is `True` exactly on these values). -/
def truthy : PyVal → Bool
  | .pyBool b => b
  | .pyStr s => !(s == "")
  | .pyNone => false
  | .pyInt n => !(n == 0)

/-- `isinstance(load, bool)`. -/
def isPyBool : PyVal → Bool
  | .pyBool _ => true
  | _ => false

/-- `load in ['full', 'required', 'minimal']` (python equality: a non-string
never equals one of these strings). -/
def isLoadModeStr (v : PyVal) : Bool :=
  v == .pyStr "full" || v == .pyStr "required" || v == .pyStr "minimal"

/-- Lines 383-388 of `SeriesDataGenerator.__init__`: the `load` mode validation.
Validation only runs for truthy values; an unrecognized truthy value is accepted
when it is a `bool` (silently rewritten to `'required'`) and rejected otherwise. -/
def validateLoad (load : PyVal) : Except String PyVal :=
  if truthy load then
    if !(isLoadModeStr load) then
      if isPyBool load then .ok (.pyStr "required")
      else .error "load must be one of full, required, or minimal"
    else .ok load
  else .ok load

/-- `self._is_loaded` after `__init__`: set `False` at line 399; `_load_data`
(which sets it `True`, line 482) is called there only under `force_load`
(lines 441-442). -/
def isLoadedAfterInit (forceLoad : Bool) : Bool := forceLoad

/-- Lines 607-609: `generate` calls `_load_data` when the flag is unset, so the
flag is `True` after any `generate` call. -/
def isLoadedAfterGenerate (_isLoaded : Bool) : Bool := true

/-- C10: `load=True` is accepted and silently treated as `'required'`; every
falsy `load` bypasses the mode validation entirely and materialization is
deferred to the first `generate` call (the loaded flag stays down after a
`force_load=False` construction and comes up on `generate`); a truthy value
raises the configuration error exactly when it is neither a `bool` nor one of
`'full'`, `'required'`, `'minimal'`. -/
theorem c10_load_mode_validation (v : PyVal) :
    validateLoad (.pyBool true) = .ok (.pyStr "required") ∧
    (truthy v = false → validateLoad v = .ok v) ∧
    (truthy v = true → isPyBool v = false → isLoadModeStr v = false →
      validateLoad v = .error "load must be one of full, required, or minimal") ∧
    (truthy v = true → isLoadModeStr v = true → validateLoad v = .ok v) ∧
    isLoadedAfterInit false = false ∧
    isLoadedAfterGenerate false = true := by
  refine ⟨rfl, ?_, ?_, ?_, rfl, rfl⟩
  · intro h
    unfold validateLoad
    simp [h]
  · intro h1 h2 h3
    unfold validateLoad
    simp [h1, h2, h3]
  · intro h1 h2
    unfold validateLoad
    simp [h1, h2]

/-- C10 witness: `load=False` is falsy, bypasses validation and survives
unchanged; `load=True` becomes `'required'`; `load='nope'` raises. -/
theorem c10_load_mode_validation_witness :
    truthy (.pyBool false) = false ∧
    validateLoad (.pyBool false) = .ok (.pyBool false) ∧
    validateLoad (.pyBool true) = .ok (.pyStr "required") ∧
    validateLoad (.pyStr "nope") =
      .error "load must be one of full, required, or minimal" :=
  ⟨rfl, (c10_load_mode_validation (.pyBool false)).2.1 rfl,
    (c10_load_mode_validation (.pyBool false)).1,
    (c10_load_mode_validation (.pyStr "nope")).2.2.1 rfl rfl rfl⟩

/-- Identity model collaborator (a concrete external model whose scaler and
imputer are the identity). -/
def identityTransforms : ModelTransforms :=
  { imputeMissing := false, imputerT := fun p t => (p, t),
    scalerT := fun p t => (p, t) }

/-- The spec's concrete scenario for C2: 100 samples, 2 input steps, 1 output
step, interval 1, no sequence, batch size 32, dense non-recurrent model. -/
def cfgC2 : SeriesConfig :=
  { totalSamples := 100, inputShapeTail := [1], outputShapeTail := [1],
    insolShapeTail := [1], rank := 1, inputTimeSteps := 2, outputTimeSteps := 1,
    sequence := none, interval := 1, addInsolation := 0, batchSize := 32,
    removeNan := true, isConvolutional := false, keepTimeAxis := false }

/-- NaN-free concrete data for C2. -/
def dataC2 : SeriesData :=
  { inputDa := fun i => [some i], outputDa := fun i => [some i],
    insolDa := fun i => [some i] }

/-- C2: on the concrete 98-sample 4-batch generator, requesting batch index
`len(generator) = 4` does NOT raise: the guard `index > len(self)` (line 712)
lets `index == len` through, the batch slice `indices[128:160]` is empty, and
`generate` treats the empty selector as "all valid offsets", returning a batch of
all 98 samples; only index 5 (`> len`) raises IndexError. -/
theorem c2_getitem_at_len_returns_full_batch :
    cfgC2.seriesLenInt = 4 ∧
    resultFirstDims
      (seriesGetitem cfgC2 dataC2 identityTransforms cfgC2.initIndices 4) =
      some (98, [98]) ∧
    resultPFirstDim
      (seriesGetitem cfgC2 dataC2 identityTransforms cfgC2.initIndices 5) = none := by
  refine ⟨by decide, by decide, by decide⟩

/-- `pySliceIdx` at a nonnegative bound is clamping to the length. -/
theorem pySliceIdx_nat (L k : Nat) : pySliceIdx L (k : Int) = min k L := by
  unfold pySliceIdx
  have h1 : ¬((k : Int) < 0) := by omega
  simp [h1]

/-- `pySlice` at nonnegative bounds is drop-then-take. -/
theorem pySlice_nat {α : Type} (xs : List α) (a b : Nat) :
    pySlice xs (a : Int) (b : Int) = (xs.drop a).take (b - a) := by
  unfold pySlice
  rw [pySliceIdx_nat, pySliceIdx_nat, List.drop_take]
  rcases le_or_lt xs.length a with hge | hlt
  · have e1 : min a xs.length = xs.length := min_eq_right hge
    rw [e1, List.drop_eq_nil_of_le (le_refl _), List.drop_eq_nil_of_le hge]
    simp
  · have e1 : min a xs.length = a := min_eq_left (le_of_lt hlt)
    rw [e1]
    rcases le_or_lt b xs.length with hble | hbgt
    · rw [min_eq_left hble]
    · rw [min_eq_right (le_of_lt hbgt)]
      have hlen : (xs.drop a).length = xs.length - a := List.length_drop _ _
      rw [List.take_of_length_le (by omega), List.take_of_length_le (by omega)]

/-- The batch slice at a natural index is drop-then-take with width `bs`. -/
theorem batchIndexes_nat (indices : List Nat) (bs : Nat) (i : Nat) :
    batchIndexes indices bs (i : Int) = (indices.drop (i * bs)).take bs := by
  unfold batchIndexes
  have h1 : (i : Int) * bs = ((i * bs : Nat) : Int) := by push_cast; ring
  have h2 : ((i : Int) + 1) * bs = (((i + 1) * bs : Nat) : Int) := by push_cast; ring
  rw [h1, h2, pySlice_nat]
  congr 1
  have h3 : (i + 1) * bs = i * bs + bs := by
    rw [Nat.succ_mul]
  omega

/-- Joining the `ceil(len/bs)` successive width-`bs` chunks of a list
reconstitutes the list. -/
theorem chunk_flatMap_eq {α : Type} (bs : Nat) (hbs : 0 < bs) :
    ∀ (N : Nat) (xs : List α), xs.length ≤ N →
      (List.range ((xs.length + bs - 1) / bs)).flatMap
        (fun i => (xs.drop (i * bs)).take bs) = xs := by
  intro N
  induction N with
  | zero =>
      intro xs hx
      have hnil : xs = [] := List.eq_nil_of_length_eq_zero (Nat.le_zero.mp hx)
      subst hnil
      simp
  | succ N ih =>
      intro xs hx
      rcases Nat.eq_zero_or_pos xs.length with h0 | hpos
      · have hnil : xs = [] := List.eq_nil_of_length_eq_zero h0
        subst hnil
        simp
      · have hcount : (xs.length + bs - 1) / bs
            = ((xs.drop bs).length + bs - 1) / bs + 1 := by
          rw [List.length_drop]
          rcases le_or_lt xs.length bs with hle | hlt
          · have hz : xs.length - bs = 0 := by omega
            rw [hz]
            have hz1 : (0 + bs - 1) / bs = 0 := by
              apply Nat.div_eq_of_lt
              omega
            have hL1 : (xs.length + bs - 1) / bs = 1 := by
              apply Nat.div_eq_of_lt_le <;> omega
            rw [hz1, hL1]
          · have h1 : xs.length + bs - 1 = (xs.length - 1) + bs := by omega
            have h2 : xs.length - bs + bs - 1 = (xs.length - bs - 1) + bs := by omega
            have h3 : xs.length - 1 = (xs.length - bs - 1) + bs := by omega
            rw [h1, h2, Nat.add_div_right _ hbs, Nat.add_div_right _ hbs, h3,
              Nat.add_div_right _ hbs]
        rw [hcount, List.range_succ_eq_map, List.flatMap_cons, List.flatMap_map]
        have hrest : ∀ i : Nat, (xs.drop (Nat.succ i * bs)).take bs
            = ((xs.drop bs).drop (i * bs)).take bs := by
          intro i
          rw [List.drop_drop]
          congr 2
          rw [Nat.succ_mul]
          omega
        simp only [Nat.zero_mul, List.drop_zero, hrest]
        rw [ih (xs.drop bs) (by rw [List.length_drop]; omega)]
        exact List.take_append_drop bs xs

/-- C5: in one epoch, the multiset of sample indices selected across batches
`0 … len-1` (batch `i` taking slice `[i*batch_size, (i+1)*batch_size)` of the
current ordering) is exactly `{0, …, n_sample-1}`, each index once — for the
identity ordering and for any shuffled permutation of it alike. -/
theorem c5_epoch_batches_cover_each_index_once (c : SeriesConfig)
    (indices : List Nat) (hperm : indices.Perm (List.range c.nSampleNat))
    (hn : 0 ≤ c.nSampleInt) (hbs : 0 < c.batchSize) :
    ((List.range c.seriesLenNat).flatMap
        (fun i => batchIndexes indices c.batchSize (i : Int))).Perm
      (List.range c.nSampleNat) := by
  have hlen : indices.length = c.nSampleNat := by
    have h := hperm.length_eq
    simpa using h
  have hL : c.seriesLenNat = (indices.length + c.batchSize - 1) / c.batchSize := by
    rw [hlen]
    exact seriesLenNat_eq c hn hbs
  have hjoin := chunk_flatMap_eq c.batchSize hbs indices.length indices (le_refl _)
  simp only [batchIndexes_nat]
  rw [hL, hjoin]
  exact hperm

/-- Concrete configuration for the C5 witness: `n_sample = 3`, two batches of
width 2. -/
def cfgC5 : SeriesConfig :=
  { totalSamples := 4, inputShapeTail := [1], outputShapeTail := [1],
    insolShapeTail := [1], rank := 1, inputTimeSteps := 1, outputTimeSteps := 1,
    sequence := none, interval := 1, addInsolation := 0, batchSize := 2,
    removeNan := true, isConvolutional := false, keepTimeAxis := false }

/-- C5 witness: the shuffled ordering `[2, 0, 1]` of `{0, 1, 2}` is covered
exactly once by the two batches `[2, 0]` and `[1]`. -/
theorem c5_epoch_batches_cover_each_index_once_witness :
    ([2, 0, 1] : List Nat).Perm (List.range cfgC5.nSampleNat) ∧
    ((List.range cfgC5.seriesLenNat).flatMap
        (fun i => batchIndexes [2, 0, 1] cfgC5.batchSize (i : Int))).Perm
      (List.range cfgC5.nSampleNat) :=
  ⟨by decide, c5_epoch_batches_cover_each_index_once cfgC5 [2, 0, 1]
    (by decide) (by decide) (by decide)⟩

/-- Every row of the matrix has width `w`. -/
def uniformW (m : Mat) (w : Nat) : Prop := ∀ r ∈ m, r.length = w

/-- Flattening a uniform matrix gives `rows * width` values. -/
theorem length_flatten_uniform (m : Mat) (w : Nat) (h : uniformW m w) :
    m.flatten.length = m.length * w := by
  rw [List.length_flatten]
  have hmap : m.map List.length = List.replicate m.length w := by
    rw [List.eq_replicate_iff]
    constructor
    · rw [List.length_map]
    · intro b hb
      obtain ⟨r, hr, hrb⟩ := List.mem_map.mp hb
      rw [← hrb]
      exact h r hr
  rw [hmap, List.sum_replicate, smul_eq_mul]

/-- `chunkRows` produces `n` rows. -/
theorem chunkRows_length (flat : List Val) (n k : Nat) :
    (chunkRows flat n k).length = n := by
  unfold chunkRows
  rw [List.length_map, List.length_range]

/-- Under the element-count side condition each chunk has exactly width `k`. -/
theorem chunkRows_uniform (flat : List Val) (n k : Nat)
    (h : flat.length = n * k) : uniformW (chunkRows flat n k) k := by
  intro r hr
  unfold chunkRows at hr
  obtain ⟨i, hi, hir⟩ := List.mem_map.mp hr
  rw [List.mem_range] at hi
  rw [← hir, List.length_take, List.length_drop, h]
  have h1 : k ≤ n * k - i * k := by
    have h2 : (i + 1) * k ≤ n * k := Nat.mul_le_mul_right k hi
    rw [Nat.succ_mul] at h2
    omega
  omega

/-- Success and shape of `npReshapeRows` when the element counts agree. -/
theorem npReshapeRows_ok (m : Mat) (n : Nat) (tail : List Nat)
    (h : m.flatten.length = n * tail.prod) :
    npReshapeRows m n tail = .ok (chunkRows m.flatten n tail.prod) := by
  unfold npReshapeRows
  rw [if_pos h]

/-- Any successful `npReshapeRows` returns `n` uniform rows of width `tail.prod`. -/
theorem npReshapeRows_ok_shape (m : Mat) (n : Nat) (tail : List Nat) (pr : Mat)
    (h : npReshapeRows m n tail = .ok pr) :
    pr.length = n ∧ uniformW pr tail.prod := by
  unfold npReshapeRows at h
  by_cases hc : m.flatten.length = n * tail.prod
  · rw [if_pos hc] at h
    cases h
    exact ⟨chunkRows_length _ _ _, chunkRows_uniform _ _ _ hc⟩
  · rw [if_neg hc] at h
    cases h

/-- The shape-preservation contract of a model transform: it keeps the row
structure (and hence the row count and each row's width) of both arrays. -/
def PreservesShapes (f : Mat → Mat → Mat × Mat) : Prop :=
  ∀ p t, (f p t).1.map List.length = p.map List.length ∧
         (f p t).2.map List.length = t.map List.length

theorem mapLength_length {p q : Mat}
    (h : p.map List.length = q.map List.length) : p.length = q.length := by
  have := congrArg List.length h
  simpa using this

theorem mapLength_uniform {p q : Mat} {w : Nat}
    (h : p.map List.length = q.map List.length) (hq : uniformW q w) :
    uniformW p w := by
  intro r hr
  have hmem : r.length ∈ p.map List.length := List.mem_map.mpr ⟨r, hr, rfl⟩
  rw [h] at hmem
  obtain ⟨s, hs, hsl⟩ := List.mem_map.mp hmem
  rw [← hsl]
  exact hq s hs

/-- `applyScaleImpute` preserves row structure under the collaborator contract. -/
theorem applyScaleImpute_mapLength (m : ModelTransforms) (sai : Bool) (p t : Mat)
    (hImp : PreservesShapes m.imputerT) (hSc : PreservesShapes m.scalerT) :
    (applyScaleImpute m sai p t).1.map List.length = p.map List.length ∧
    (applyScaleImpute m sai p t).2.map List.length = t.map List.length := by
  unfold applyScaleImpute
  by_cases hs : sai
  · rw [if_pos hs]
    by_cases hi : m.imputeMissing
    · rw [if_pos hi]
      obtain ⟨h1, h2⟩ := hImp p t
      obtain ⟨h3, h4⟩ := hSc (m.imputerT p t).1 (m.imputerT p t).2
      exact ⟨h3.trans h1, h4.trans h2⟩
    · rw [if_neg hi]
      exact hSc p t
  · rw [if_neg hs]
    exact ⟨rfl, rfl⟩

/-- With `scale_and_impute=False` the transforms are not touched at all. -/
theorem applyScaleImpute_false (m : ModelTransforms) (p t : Mat) :
    applyScaleImpute m false p t = (p, t) := rfl

/-- `delete_nan_samples` always returns predictor and target arrays of equal
row count. -/
theorem delete_nan_lengths_eq (p t : Mat) :
    (delete_nan_samples p t).1.length = (delete_nan_samples p t).2.length := by
  unfold delete_nan_samples
  simp

/-- NaN removal never adds predictor rows. -/
theorem delete_nan_fst_le (p t : Mat) :
    (delete_nan_samples p t).1.length ≤ p.length := by
  unfold delete_nan_samples
  simp only [List.length_map]
  calc ((p.zip t).filter _).length ≤ (p.zip t).length := List.length_filter_le _ _
    _ ≤ p.length := by rw [List.length_zip]; omega

/-- NaN removal never adds target rows. -/
theorem delete_nan_snd_le (p t : Mat) :
    (delete_nan_samples p t).2.length ≤ t.length := by
  unfold delete_nan_samples
  simp only [List.length_map]
  calc ((p.zip t).filter _).length ≤ (p.zip t).length := List.length_filter_le _ _
    _ ≤ t.length := by rw [List.length_zip]; omega

/-- Every surviving predictor row was a row of the input predictor array. -/
theorem delete_nan_fst_mem (p t : Mat) (r : Row)
    (h : r ∈ (delete_nan_samples p t).1) : r ∈ p := by
  unfold delete_nan_samples at h
  simp only [List.mem_map] at h
  obtain ⟨⟨a, b⟩, hab, hr⟩ := h
  have := List.mem_of_mem_filter hab
  cases hr
  exact (List.of_mem_zip this).1

/-- Every surviving target row was a row of the input target array. -/
theorem delete_nan_snd_mem (p t : Mat) (r : Row)
    (h : r ∈ (delete_nan_samples p t).2) : r ∈ t := by
  unfold delete_nan_samples at h
  simp only [List.mem_map] at h
  obtain ⟨⟨a, b⟩, hab, hr⟩ := h
  have := List.mem_of_mem_filter hab
  cases hr
  exact (List.of_mem_zip this).2

/-- When no row of either array contains NaN and the arrays have equal length,
NaN removal is the identity. -/
theorem delete_nan_id (p t : Mat) (hlen : p.length = t.length)
    (hp : ∀ r ∈ p, hasNan r = false) (ht : ∀ r ∈ t, hasNan r = false) :
    delete_nan_samples p t = (p, t) := by
  unfold delete_nan_samples
  have hfil : (p.zip t).filter (fun pt => !(hasNan pt.1) && !(hasNan pt.2))
      = p.zip t := by
    rw [List.filter_eq_self]
    intro a ha
    obtain ⟨h1, h2⟩ := List.of_mem_zip ha
    rw [hp a.1 h1, ht a.2 h2]
    rfl
  rw [hfil]
  show (List.map Prod.fst (p.zip t), List.map Prod.snd (p.zip t)) = (p, t)
  rw [List.map_fst_zip p t (by omega), List.map_snd_zip p t (by omega)]

theorem dropLastN_lastN_prod (r : Nat) (l : List Nat) :
    (dropLastN r l).prod * (lastN r l).prod = l.prod :=
  List.prod_take_mul_prod_drop l (l.length - r)

theorem lastN_cons {r : Nat} {l : List Nat} (a : Nat) (h : r ≤ l.length) :
    lastN r (a :: l) = lastN r l := by
  unfold lastN
  rw [List.length_cons]
  have he : l.length + 1 - r = (l.length - r) + 1 := by omega
  rw [he, List.drop_succ_cons]

theorem dropLastN_cons {r : Nat} {l : List Nat} (a : Nat) (h : r ≤ l.length) :
    dropLastN r (a :: l) = a :: dropLastN r l := by
  unfold dropLastN
  rw [List.length_cons]
  have he : l.length + 1 - r = (l.length - r) + 1 := by omega
  rw [he, List.take_succ_cons]

/-- Width of each flattened predictor row, insolation channels included
(`input_time_steps * (features_per_step + spatial * insolation_flag)`). -/
def pRowWidth (c : SeriesConfig) : Nat :=
  c.inputTimeSteps * (c.inputShapeTail.prod +
    (lastN c.rank c.inputShapeTail).prod * c.addInsolation)

/-- Width of each flattened target row. -/
def tRowWidth (c : SeriesConfig) : Nat :=
  c.outputTimeSteps * c.outputShapeTail.prod

theorem convolutionShape_prod (c : SeriesConfig)
    (hrank : c.rank ≤ c.inputShapeTail.length) :
    c.convolutionShape.prod = pRowWidth c := by
  unfold SeriesConfig.convolutionShape pRowWidth
  have hsplit := dropLastN_lastN_prod c.rank c.inputShapeTail
  by_cases hk : c.keepTimeAxis
  · rw [if_pos hk]
    unfold SeriesConfig.shape
    rw [lastN_cons _ hrank, List.prod_cons, List.prod_cons, ← hsplit]
    ring
  · rw [if_neg hk]
    unfold SeriesConfig.shape SeriesConfig.inputDaShape
    rw [lastN_cons _ hrank, dropLastN_cons _ hrank, List.prod_cons, List.prod_cons,
      ← hsplit]
    ring

theorem n_features_eq (c : SeriesConfig) (hrank : c.rank ≤ c.inputShapeTail.length) :
    c.n_features = pRowWidth c := by
  unfold SeriesConfig.n_features pRowWidth SeriesConfig.shape
  rw [lastN_cons _ hrank, List.prod_cons]
  ring

theorem denseShape_prod (c : SeriesConfig)
    (hrank : c.rank ≤ c.inputShapeTail.length) (hits : 0 < c.inputTimeSteps) :
    c.denseShape.prod = pRowWidth c := by
  have hnf := n_features_eq c hrank
  have hw : pRowWidth c = c.inputTimeSteps * (c.inputShapeTail.prod +
      (lastN c.rank c.inputShapeTail).prod * c.addInsolation) := rfl
  unfold SeriesConfig.denseShape
  by_cases hk : c.keepTimeAxis
  · rw [if_pos hk]
    have hhead : c.shape.headD 0 = c.inputTimeSteps := rfl
    rw [hhead, List.prod_cons, List.prod_cons, List.prod_nil, mul_one, hnf, hw,
      Nat.mul_div_cancel_left _ hits]
  · rw [if_neg hk, List.prod_cons, List.prod_nil, mul_one, hnf]

theorem outputConvolutionShape_prod (c : SeriesConfig)
    (hrankO : c.rank ≤ c.outputShapeTail.length) :
    c.outputConvolutionShape.prod = tRowWidth c := by
  unfold SeriesConfig.outputConvolutionShape tRowWidth
  have hsplit := dropLastN_lastN_prod c.rank c.outputShapeTail
  by_cases hk : c.keepTimeAxis
  · rw [if_pos hk]
    unfold SeriesConfig.outputShape
    rw [lastN_cons _ hrankO, List.prod_cons, List.prod_cons, ← hsplit]
  · rw [if_neg hk]
    unfold SeriesConfig.outputShape SeriesConfig.outputDaShape
    rw [lastN_cons _ hrankO, dropLastN_cons _ hrankO, List.prod_cons, List.prod_cons,
      ← hsplit]
    ring

theorem outputDenseShape_prod (c : SeriesConfig)
    (_hrankO : c.rank ≤ c.outputShapeTail.length) (hots : 0 < c.outputTimeSteps) :
    c.outputDenseShape.prod = tRowWidth c := by
  have hnf : c.output_n_features = tRowWidth c := by
    unfold SeriesConfig.output_n_features SeriesConfig.outputShape tRowWidth
    rw [List.prod_cons]
  unfold SeriesConfig.outputDenseShape
  by_cases hk : c.keepTimeAxis
  · rw [if_pos hk]
    have hhead : c.outputShape.headD 0 = c.outputTimeSteps := rfl
    rw [hhead, List.prod_cons, List.prod_cons, List.prod_nil, mul_one, hnf]
    unfold tRowWidth
    rw [Nat.mul_div_cancel_left _ hots]
  · rw [if_neg hk, List.prod_cons, List.prod_nil, mul_one, hnf]

/-- The reshape target used inside the insolation branch (line 619: the
convolution shape with no insolation and the time axis kept) has total size
`input_time_steps * features_per_step`. -/
theorem insolReshape_prod (c : SeriesConfig)
    (hrank : c.rank ≤ c.inputShapeTail.length) :
    (SeriesConfig.convolutionShape
      { c with addInsolation := 0, keepTimeAxis := true }).prod =
      c.inputTimeSteps * c.inputShapeTail.prod := by
  rw [convolutionShape_prod { c with addInsolation := 0, keepTimeAxis := true } hrank]
  unfold pRowWidth
  simp

/-- The per-time-step chunk width used by the insolation merge
(`(shape.drop 1).prod = features_per_step`). -/
theorem insolStepLen (c : SeriesConfig) (hrank : c.rank ≤ c.inputShapeTail.length) :
    ((SeriesConfig.convolutionShape
        { c with addInsolation := 0, keepTimeAxis := true }).drop 1).prod =
      c.inputShapeTail.prod := by
  unfold SeriesConfig.convolutionShape
  rw [if_pos rfl]
  unfold SeriesConfig.shape
  rw [List.drop_succ_cons, List.drop_zero, lastN_cons _ hrank, List.prod_cons,
    Nat.add_zero]
  exact dropLastN_lastN_prod c.rank c.inputShapeTail

theorem sum_map_const_on {α : Type} (l : List α) (f : α → Nat) (w : Nat)
    (h : ∀ a ∈ l, f a = w) : (l.map f).sum = l.length * w := by
  have hmap : l.map f = List.replicate l.length w := by
    rw [List.eq_replicate_iff]
    refine ⟨by rw [List.length_map], fun b hb => ?_⟩
    obtain ⟨a, ha, hab⟩ := List.mem_map.mp hb
    rw [← hab]
    exact h a ha
  rw [hmap, List.sum_replicate, smul_eq_mul]

theorem hasNan_false_iff (r : Row) :
    hasNan r = false ↔ ∀ v ∈ r, v.isNone = false := by
  unfold hasNan
  rw [List.any_eq_false]
  constructor
  · intro h v hv
    exact Bool.eq_false_iff.mpr (h v hv)
  · intro h v hv
    exact Bool.eq_false_iff.mp (h v hv)

/-- NaN-freedom of the three data arrays. -/
def CleanData (d : SeriesData) : Prop :=
  (∀ i, hasNan (d.inputDa i) = false) ∧ (∀ i, hasNan (d.outputDa i) = false) ∧
    (∀ i, hasNan (d.insolDa i) = false)

theorem mem_getD_list (rows : List Row) (k : Nat) (v : Val)
    (h : v ∈ rows.getD k []) : ∃ r ∈ rows, v ∈ r := by
  rcases lt_or_ge k rows.length with hk | hk
  · rw [List.getD_eq_getElem _ _ hk] at h
    exact ⟨rows[k], List.getElem_mem hk, h⟩
  · rw [List.getD_eq_default _ _ hk] at h
    cases h

/-- Row count of a flattened gather. -/
theorem gather_flat_length (g : List (List Row)) :
    (g.map List.flatten).length = g.length := by rw [List.length_map]

theorem gatherInput_length (d : SeriesData) (c : SeriesConfig) (samples : List Nat) :
    (gatherInput d c samples).length = samples.length := by
  unfold gatherInput
  rw [List.length_map]

theorem gatherInsol_length (d : SeriesData) (c : SeriesConfig) (samples : List Nat)
    (j : Nat) : (gatherInsol d c samples j).length = samples.length := by
  unfold gatherInsol
  rw [List.length_map]

theorem gatherTarget_length (d : SeriesData) (c : SeriesConfig) (samples : List Nat)
    (j : Nat) : (gatherTarget d c samples j).length = samples.length := by
  unfold gatherTarget
  rw [List.length_map]

theorem gatherTargetNonSeq_length (d : SeriesData) (c : SeriesConfig)
    (samples : List Nat) :
    (gatherTargetNonSeq d c samples).length = samples.length := by
  unfold gatherTargetNonSeq
  rw [List.length_map]

theorem gatherInput_flat_uniform (d : SeriesData) (c : SeriesConfig)
    (samples : List Nat)
    (hIn : ∀ i, (d.inputDa i).length = c.inputShapeTail.prod) :
    uniformW ((gatherInput d c samples).map List.flatten)
      (c.inputTimeSteps * c.inputShapeTail.prod) := by
  intro r hr
  obtain ⟨rows, hrows, hflat⟩ := List.mem_map.mp hr
  unfold gatherInput at hrows
  obtain ⟨s, _, hs⟩ := List.mem_map.mp hrows
  rw [← hflat, ← hs]
  rw [length_flatten_uniform _ c.inputShapeTail.prod ?_]
  · rw [List.length_map, List.length_range]
  · intro rr hrr
    obtain ⟨k, _, hk⟩ := List.mem_map.mp hrr
    rw [← hk]
    exact hIn _

theorem gatherTarget_flat_uniform (d : SeriesData) (c : SeriesConfig)
    (samples : List Nat) (j : Nat)
    (hOut : ∀ i, (d.outputDa i).length = c.outputShapeTail.prod) :
    uniformW ((gatherTarget d c samples j).map List.flatten) (tRowWidth c) := by
  intro r hr
  obtain ⟨rows, hrows, hflat⟩ := List.mem_map.mp hr
  unfold gatherTarget at hrows
  obtain ⟨s, _, hs⟩ := List.mem_map.mp hrows
  rw [← hflat, ← hs]
  rw [length_flatten_uniform _ c.outputShapeTail.prod ?_]
  · rw [List.length_map, List.length_range]
    rfl
  · intro rr hrr
    obtain ⟨k, _, hk⟩ := List.mem_map.mp hrr
    rw [← hk]
    exact hOut _

theorem gatherTargetNonSeq_flat_uniform (d : SeriesData) (c : SeriesConfig)
    (samples : List Nat)
    (hOut : ∀ i, (d.outputDa i).length = c.outputShapeTail.prod) :
    uniformW ((gatherTargetNonSeq d c samples).map List.flatten) (tRowWidth c) := by
  intro r hr
  obtain ⟨rows, hrows, hflat⟩ := List.mem_map.mp hr
  unfold gatherTargetNonSeq at hrows
  obtain ⟨s, _, hs⟩ := List.mem_map.mp hrows
  rw [← hflat, ← hs]
  rw [length_flatten_uniform _ c.outputShapeTail.prod ?_]
  · rw [List.length_map, List.length_range]
    rfl
  · intro rr hrr
    obtain ⟨k, _, hk⟩ := List.mem_map.mp hrr
    rw [← hk]
    exact hOut _

theorem gatherInsol_block_shape (d : SeriesData) (c : SeriesConfig)
    (samples : List Nat) (j : Nat) (S : Nat)
    (hI : ∀ i, (d.insolDa i).length = S) :
    ∀ rows ∈ gatherInsol d c samples j,
      rows.length = c.inputTimeSteps ∧ ∀ r ∈ rows, r.length = S := by
  intro rows hrows
  unfold gatherInsol at hrows
  obtain ⟨s, _, hs⟩ := List.mem_map.mp hrows
  rw [← hs]
  refine ⟨by rw [List.length_map, List.length_range], fun r hr => ?_⟩
  obtain ⟨k, _, hk⟩ := List.mem_map.mp hr
  rw [← hk]
  exact hI _

theorem gatherInput_flat_clean (d : SeriesData) (c : SeriesConfig)
    (samples : List Nat) (hc : ∀ i, hasNan (d.inputDa i) = false) :
    ∀ r ∈ (gatherInput d c samples).map List.flatten, hasNan r = false := by
  intro r hr
  obtain ⟨rows, hrows, hflat⟩ := List.mem_map.mp hr
  unfold gatherInput at hrows
  obtain ⟨s, _, hs⟩ := List.mem_map.mp hrows
  rw [← hflat, hasNan_false_iff]
  intro v hv
  rw [List.mem_flatten] at hv
  obtain ⟨rr, hrr, hvrr⟩ := hv
  rw [← hs] at hrr
  obtain ⟨k, _, hk⟩ := List.mem_map.mp hrr
  rw [← hk] at hvrr
  exact (hasNan_false_iff _).mp (hc _) v hvrr

theorem gatherTarget_flat_clean (d : SeriesData) (c : SeriesConfig)
    (samples : List Nat) (j : Nat) (hc : ∀ i, hasNan (d.outputDa i) = false) :
    ∀ r ∈ (gatherTarget d c samples j).map List.flatten, hasNan r = false := by
  intro r hr
  obtain ⟨rows, hrows, hflat⟩ := List.mem_map.mp hr
  unfold gatherTarget at hrows
  obtain ⟨s, _, hs⟩ := List.mem_map.mp hrows
  rw [← hflat, hasNan_false_iff]
  intro v hv
  rw [List.mem_flatten] at hv
  obtain ⟨rr, hrr, hvrr⟩ := hv
  rw [← hs] at hrr
  obtain ⟨k, _, hk⟩ := List.mem_map.mp hrr
  rw [← hk] at hvrr
  exact (hasNan_false_iff _).mp (hc _) v hvrr

theorem gatherTargetNonSeq_flat_clean (d : SeriesData) (c : SeriesConfig)
    (samples : List Nat) (hc : ∀ i, hasNan (d.outputDa i) = false) :
    ∀ r ∈ (gatherTargetNonSeq d c samples).map List.flatten, hasNan r = false := by
  intro r hr
  obtain ⟨rows, hrows, hflat⟩ := List.mem_map.mp hr
  unfold gatherTargetNonSeq at hrows
  obtain ⟨s, _, hs⟩ := List.mem_map.mp hrows
  rw [← hflat, hasNan_false_iff]
  intro v hv
  rw [List.mem_flatten] at hv
  obtain ⟨rr, hrr, hvrr⟩ := hv
  rw [← hs] at hrr
  obtain ⟨k, _, hk⟩ := List.mem_map.mp hrr
  rw [← hk] at hvrr
  exact (hasNan_false_iff _).mp (hc _) v hvrr

theorem mergeInsol_length (steps stepLen : Nat) (p : Mat) (block : List (List Row)) :
    (mergeInsol steps stepLen p block).length = min p.length block.length := by
  unfold mergeInsol
  rw [List.length_map, List.length_zip]

theorem mergeInsol_uniform (steps stepLen S : Nat) (p : Mat)
    (block : List (List Row)) (hp : uniformW p (steps * stepLen))
    (hb : ∀ rows ∈ block, rows.length = steps ∧ ∀ r ∈ rows, r.length = S) :
    uniformW (mergeInsol steps stepLen p block) (steps * (stepLen + S)) := by
  intro r hr
  unfold mergeInsol at hr
  obtain ⟨⟨pr, rows⟩, hm, hrr⟩ := List.mem_map.mp hr
  obtain ⟨hp1, hb1⟩ := List.of_mem_zip hm
  rw [← hrr, List.length_flatMap]
  rw [sum_map_const_on _ _ (stepLen + S) ?_, List.length_range]
  intro k hk
  rw [List.mem_range] at hk
  show (((pr.drop (k * stepLen)).take stepLen) ++ rows.getD k []).length = stepLen + S
  rw [List.length_append, List.length_take, List.length_drop, hp pr hp1]
  obtain ⟨hlen, hS⟩ := hb rows hb1
  have hklen : k < rows.length := by omega
  have hrk : (rows.getD k []).length = S := by
    rw [List.getD_eq_getElem _ _ hklen]
    exact hS _ (List.getElem_mem hklen)
  rw [hrk]
  have hmul : (k + 1) * stepLen ≤ steps * stepLen := Nat.mul_le_mul_right _ hk
  rw [Nat.succ_mul] at hmul
  omega

theorem mergeInsol_clean (steps stepLen : Nat) (p : Mat) (block : List (List Row))
    (hp : ∀ r ∈ p, hasNan r = false)
    (hb : ∀ rows ∈ block, ∀ r ∈ rows, hasNan r = false) :
    ∀ r ∈ mergeInsol steps stepLen p block, hasNan r = false := by
  intro r hr
  unfold mergeInsol at hr
  obtain ⟨⟨pr, rows⟩, hm, hrr⟩ := List.mem_map.mp hr
  obtain ⟨hp1, hb1⟩ := List.of_mem_zip hm
  rw [← hrr, hasNan_false_iff]
  intro v hv
  rw [List.mem_flatMap] at hv
  obtain ⟨k, _, hvk⟩ := hv
  rw [List.mem_append] at hvk
  rcases hvk with hv1 | hv2
  · have hvp : v ∈ pr := List.mem_of_mem_drop (List.mem_of_mem_take hv1)
    exact (hasNan_false_iff _).mp (hp pr hp1) v hvp
  · obtain ⟨rr, hrr2, hvrr⟩ := mem_getD_list rows k v hv2
    exact (hasNan_false_iff _).mp (hb rows hb1 rr hrr2) v hvrr

theorem gatherInsol_block_clean (d : SeriesData) (c : SeriesConfig)
    (samples : List Nat) (j : Nat) (hc : ∀ i, hasNan (d.insolDa i) = false) :
    ∀ rows ∈ gatherInsol d c samples j, ∀ r ∈ rows, hasNan r = false := by
  intro rows hrows r hr
  unfold gatherInsol at hrows
  obtain ⟨s, _, hs⟩ := List.mem_map.mp hrows
  rw [← hs] at hr
  obtain ⟨k, _, hk⟩ := List.mem_map.mp hr
  rw [← hk]
  exact hc _

/-- Bundled well-formedness of one generator instance: rank within the trailing
dims (as in any real dataset, whose trailing dims end with the `rank` spatial
axes), the constructor assertions on the step counts, conformant array rows, and
the collaborator's shape-preservation contract. -/
structure WellFormed (c : SeriesConfig) (d : SeriesData) (m : ModelTransforms) :
    Prop where
  hrank : c.rank ≤ c.inputShapeTail.length
  hrankO : c.rank ≤ c.outputShapeTail.length
  hits : 0 < c.inputTimeSteps
  hots : 0 < c.outputTimeSteps
  hIn : ∀ i, (d.inputDa i).length = c.inputShapeTail.prod
  hOut : ∀ i, (d.outputDa i).length = c.outputShapeTail.prod
  hInsol : ∀ i, (d.insolDa i).length = (lastN c.rank c.inputShapeTail).prod
  hImp : PreservesShapes m.imputerT
  hSc : PreservesShapes m.scalerT
  hins01 : c.addInsolation ≤ 1
  hseqpos : ∀ q, c.sequence = some q → 0 < q

/-- On conformant inputs, the final formatting succeeds and returns a predictor
row matrix of `n` rows of the standard width and a target tensor with first
dimension `n`. -/
theorem formatPair_ok (c : SeriesConfig) (n : Nat) (p t : Mat)
    (hrank : c.rank ≤ c.inputShapeTail.length)
    (hrankO : c.rank ≤ c.outputShapeTail.length)
    (hits : 0 < c.inputTimeSteps) (hots : 0 < c.outputTimeSteps)
    (hp : p.length = n) (hpw : uniformW p (pRowWidth c))
    (ht : t.length = n) (htw : uniformW t (tRowWidth c)) :
    ∃ pr tA, formatPair c n p t = .ok (pr, tA) ∧
      pr.length = n ∧ uniformW pr (pRowWidth c) ∧ tA.shape.headD 0 = n := by
  unfold formatPair
  by_cases hconv : c.isConvolutional
  · rw [if_pos hconv]
    have hpc : p.flatten.length = n * c.convolutionShape.prod := by
      rw [length_flatten_uniform p _ hpw, hp, convolutionShape_prod c hrank]
    have htc : t.flatten.length = n * c.outputConvolutionShape.prod := by
      rw [length_flatten_uniform t _ htw, ht, outputConvolutionShape_prod c hrankO]
    rw [npReshapeRows_ok _ _ _ hpc, npReshapeRows_ok _ _ _ htc]
    refine ⟨_, _, rfl, chunkRows_length _ _ _, ?_, rfl⟩
    have he : c.convolutionShape.prod = pRowWidth c := convolutionShape_prod c hrank
    rw [he]
    exact chunkRows_uniform p.flatten n (pRowWidth c) (by rw [← he]; exact hpc)
  · rw [if_neg hconv]
    by_cases hkt : c.keepTimeAxis
    · rw [if_pos hkt]
      have hpc : p.flatten.length = n * c.denseShape.prod := by
        rw [length_flatten_uniform p _ hpw, hp, denseShape_prod c hrank hits]
      have htc : t.flatten.length = n * c.outputDenseShape.prod := by
        rw [length_flatten_uniform t _ htw, ht, outputDenseShape_prod c hrankO hots]
      rw [npReshapeRows_ok _ _ _ hpc, npReshapeRows_ok _ _ _ htc]
      refine ⟨_, _, rfl, chunkRows_length _ _ _, ?_, rfl⟩
      have he : c.denseShape.prod = pRowWidth c := denseShape_prod c hrank hits
      rw [he]
      exact chunkRows_uniform p.flatten n (pRowWidth c) (by rw [← he]; exact hpc)
    · rw [if_neg hkt]
      refine ⟨p, from2D t, rfl, hp, hpw, ?_⟩
      unfold from2D
      rw [List.headD_cons, ht]

/-- Any successful formatting bounds the outputs by the requested row count when
the inputs are so bounded. -/
theorem formatPair_ok_bounds (c : SeriesConfig) (n : Nat) (p t : Mat) (pr : Mat)
    (tA : NDArr) (h : formatPair c n p t = .ok (pr, tA))
    (hp : p.length ≤ n) (ht : t.length ≤ n) :
    pr.length ≤ n ∧ tA.shape.headD 0 ≤ n := by
  unfold formatPair at h
  by_cases hconv : c.isConvolutional
  · rw [if_pos hconv] at h
    cases hre : npReshapeRows p n c.convolutionShape with
    | error e => rw [hre] at h; simp at h
    | ok x =>
      cases hre2 : npReshapeRows t n c.outputConvolutionShape with
      | error e => rw [hre, hre2] at h; simp at h
      | ok y =>
        rw [hre, hre2] at h
        simp only [Except.ok.injEq, Prod.mk.injEq] at h
        obtain ⟨h1, h2⟩ := h
        subst h1
        subst h2
        refine ⟨?_, ?_⟩
        · rw [(npReshapeRows_ok_shape _ _ _ _ hre).1]
        · rw [List.headD_cons]
  · rw [if_neg hconv] at h
    by_cases hkt : c.keepTimeAxis
    · rw [if_pos hkt] at h
      cases hre : npReshapeRows p n c.denseShape with
      | error e => rw [hre] at h; simp at h
      | ok x =>
        cases hre2 : npReshapeRows t n c.outputDenseShape with
        | error e => rw [hre, hre2] at h; simp at h
        | ok y =>
          rw [hre, hre2] at h
          simp only [Except.ok.injEq, Prod.mk.injEq] at h
          obtain ⟨h1, h2⟩ := h
          subst h1
          subst h2
          refine ⟨?_, ?_⟩
          · rw [(npReshapeRows_ok_shape _ _ _ _ hre).1]
          · rw [List.headD_cons]
    · rw [if_neg hkt] at h
      simp only [Except.ok.injEq, Prod.mk.injEq] at h
      obtain ⟨h1, h2⟩ := h
      subst h1
      subst h2
      refine ⟨hp, ?_⟩
      unfold from2D
      rw [List.headD_cons]
      exact ht

/-- When NaN removal is disabled, the stage preserves row structure. -/
theorem seqStep_mapLength (c : SeriesConfig) (m : ModelTransforms) (sai : Bool)
    (p t0 : Mat) (hImp : PreservesShapes m.imputerT)
    (hSc : PreservesShapes m.scalerT) (hrn : c.removeNan = false) :
    (seqStep c m sai p t0).1.map List.length = p.map List.length ∧
    (seqStep c m sai p t0).2.map List.length = t0.map List.length := by
  simp only [seqStep]
  rw [hrn]
  simp only [Bool.false_eq_true, if_false]
  exact applyScaleImpute_mapLength m sai p t0 hImp hSc

/-- When the stage inputs are NaN-free with matching row counts, the stage
preserves row structure whatever the `remove_nan` flag. -/
theorem seqStep_mapLength_clean (c : SeriesConfig) (m : ModelTransforms)
    (sai : Bool) (p t0 : Mat) (hImp : PreservesShapes m.imputerT)
    (hSc : PreservesShapes m.scalerT) (hlen : p.length = t0.length)
    (hpcl : ∀ r ∈ p, hasNan r = false) (htcl : ∀ r ∈ t0, hasNan r = false) :
    (seqStep c m sai p t0).1.map List.length = p.map List.length ∧
    (seqStep c m sai p t0).2.map List.length = t0.map List.length := by
  simp only [seqStep]
  by_cases hrn : c.removeNan = true
  · rw [if_pos hrn, delete_nan_id p t0 hlen hpcl htcl]
    exact applyScaleImpute_mapLength m sai p t0 hImp hSc
  · rw [if_neg hrn]
    exact applyScaleImpute_mapLength m sai p t0 hImp hSc

/-- The stage never increases row counts. -/
theorem seqStep_bounds (c : SeriesConfig) (m : ModelTransforms) (sai : Bool)
    (p t0 : Mat) (hImp : PreservesShapes m.imputerT)
    (hSc : PreservesShapes m.scalerT) :
    (seqStep c m sai p t0).1.length ≤ p.length ∧
    (seqStep c m sai p t0).2.length ≤ t0.length := by
  simp only [seqStep]
  by_cases hrn : c.removeNan = true
  · rw [if_pos hrn]
    have hmt := applyScaleImpute_mapLength m sai (delete_nan_samples p t0).1
      (delete_nan_samples p t0).2 hImp hSc
    rw [mapLength_length hmt.1, mapLength_length hmt.2]
    exact ⟨delete_nan_fst_le p t0, delete_nan_snd_le p t0⟩
  · rw [if_neg hrn]
    have hmt := applyScaleImpute_mapLength m sai p t0 hImp hSc
    rw [mapLength_length hmt.1, mapLength_length hmt.2]
    exact ⟨le_refl _, le_refl _⟩

/-- With NaN removal disabled and conformant data, every sequence iteration
succeeds, keeps `n` predictor rows of the standard width, and emits one target
tensor of first dimension `n` per forecast step. -/
theorem seqLoop_ok_counts (c : SeriesConfig) (d : SeriesData) (m : ModelTransforms)
    (sai : Bool) (samples : List Nat) (n : Nat) (wf : WellFormed c d m)
    (hrn : c.removeNan = false) (hsam : samples.length = n) :
    ∀ (rem j : Nat) (p : Mat), p.length = n → uniformW p (pRowWidth c) →
      ∃ pf ts, seqLoop c d m sai samples n j rem p = .ok (pf, ts) ∧
        pf.length = n ∧ uniformW pf (pRowWidth c) ∧
        ts.length = rem ∧ ∀ a ∈ ts, a.shape.headD 0 = n := by
  intro rem
  induction rem with
  | zero =>
      intro j p hp hpw
      exact ⟨p, [], rfl, hp, hpw, rfl, by intro a ha; cases ha⟩
  | succ rem ih =>
      intro j p hp hpw
      have ht0l : ((gatherTarget d c samples j).map List.flatten).length = n := by
        rw [gather_flat_length, gatherTarget_length, hsam]
      have ht0w := gatherTarget_flat_uniform d c samples j wf.hOut
      have hmt := seqStep_mapLength c m sai p
        ((gatherTarget d c samples j).map List.flatten) wf.hImp wf.hSc hrn
      have hp2l : (seqStep c m sai p
          ((gatherTarget d c samples j).map List.flatten)).1.length = n := by
        rw [mapLength_length hmt.1, hp]
      have hp2w := mapLength_uniform hmt.1 hpw
      have ht2l : (seqStep c m sai p
          ((gatherTarget d c samples j).map List.flatten)).2.length = n := by
        rw [mapLength_length hmt.2, ht0l]
      have ht2w := mapLength_uniform hmt.2 ht0w
      obtain ⟨pr, tA, hfmt, hprl, hprw, htAh⟩ :=
        formatPair_ok c n _ _ wf.hrank wf.hrankO wf.hits wf.hots hp2l hp2w ht2l ht2w
      obtain ⟨pf, ts, hrec, hpfl, hpfw, htsl, htsh⟩ := ih (j + 1) pr hprl hprw
      refine ⟨pf, tA :: ts, ?_, hpfl, hpfw, by rw [List.length_cons, htsl], ?_⟩
      · show seqLoop c d m sai samples n j (rem + 1) p = .ok (pf, tA :: ts)
        simp only [seqLoop, hfmt, hrec]
      · intro a ha
        rcases List.mem_cons.mp ha with h1 | h2
        · rw [h1]; exact htAh
        · exact htsh a h2

/-- Whatever NaN removal does, a successful sequence loop never returns more
than `n` rows in the predictor or in any target tensor. -/
theorem seqLoop_ok_bounds (c : SeriesConfig) (d : SeriesData) (m : ModelTransforms)
    (sai : Bool) (samples : List Nat) (n : Nat)
    (hImp : PreservesShapes m.imputerT) (hSc : PreservesShapes m.scalerT)
    (hsam : samples.length = n) :
    ∀ (rem j : Nat) (p : Mat), p.length ≤ n →
      ∀ pf ts, seqLoop c d m sai samples n j rem p = .ok (pf, ts) →
        pf.length ≤ n ∧ ∀ a ∈ ts, a.shape.headD 0 ≤ n := by
  intro rem
  induction rem with
  | zero =>
      intro j p hp pf ts h
      unfold seqLoop at h
      simp only [Except.ok.injEq, Prod.mk.injEq] at h
      obtain ⟨h1, h2⟩ := h
      subst h1
      subst h2
      exact ⟨hp, by intro a ha; cases ha⟩
  | succ rem ih =>
      intro j p hp pf ts h
      have ht0l : ((gatherTarget d c samples j).map List.flatten).length = n := by
        rw [gather_flat_length, gatherTarget_length, hsam]
      have hstage := seqStep_bounds c m sai p
        ((gatherTarget d c samples j).map List.flatten) hImp hSc
      unfold seqLoop at h
      split at h
      · exact absurd h (by simp)
      · rename_i prt heqf
        split at h
        · exact absurd h (by simp)
        · rename_i pfts heqr
          simp only [Except.ok.injEq, Prod.mk.injEq] at h
          obtain ⟨h1, h2⟩ := h
          subst h1
          subst h2
          obtain ⟨hb0, hb1⟩ := formatPair_ok_bounds c n _ _ prt.1 prt.2
            (by rw [← heqf]) (le_trans hstage.1 hp)
            (le_trans hstage.2 (le_of_eq ht0l))
          obtain ⟨hc0, hc1⟩ := ih (j + 1) prt.1 hb0 pfts.1 pfts.2 heqr
          refine ⟨hc0, ?_⟩
          intro a ha
          rcases List.mem_cons.mp ha with hm1 | hm2
          · rw [hm1]; exact hb1
          · exact hc1 a hm2

/-- First dimension of the packaged predictor tensor. -/
theorem packP_headD (c : SeriesConfig) (n : Nat) (p : Mat) (hp : p.length = n) :
    (packP c n p).shape.headD 0 = n := by
  unfold packP
  by_cases hconv : c.isConvolutional
  · rw [if_pos hconv, List.headD_cons]
  · rw [if_neg hconv]
    by_cases hkt : c.keepTimeAxis
    · rw [if_pos hkt, List.headD_cons]
    · rw [if_neg hkt]
      unfold from2D
      rw [List.headD_cons, hp]

theorem packP_headD_le (c : SeriesConfig) (n : Nat) (p : Mat) (hp : p.length ≤ n) :
    (packP c n p).shape.headD 0 ≤ n := by
  unfold packP
  by_cases hconv : c.isConvolutional
  · rw [if_pos hconv, List.headD_cons]
  · rw [if_neg hconv]
    by_cases hkt : c.keepTimeAxis
    · rw [if_pos hkt, List.headD_cons]
    · rw [if_neg hkt]
      unfold from2D
      rw [List.headD_cons]
      exact hp

theorem headD_map_range {α : Type} (f : Nat → α) (q : Nat) (d : α) (hq : 0 < q) :
    ((List.range q).map f).headD d = f 0 := by
  cases q with
  | zero => omega
  | succ r =>
      rw [List.range_succ_eq_map]
      rfl

/-- Under well-formedness the predictor assembly succeeds and yields
`samples.length` rows of the standard width; the rows are NaN-free whenever the
gathered data is. -/
theorem assembleP_ok (c : SeriesConfig) (d : SeriesData) (samples : List Nat)
    (hrank : c.rank ≤ c.inputShapeTail.length)
    (hIn : ∀ i, (d.inputDa i).length = c.inputShapeTail.prod)
    (hInsol : ∀ i, (d.insolDa i).length = (lastN c.rank c.inputShapeTail).prod)
    (hins01 : c.addInsolation ≤ 1)
    (hseqpos : ∀ q, c.sequence = some q → 0 < q) :
    ∃ pFlat, assembleP c d samples = .ok pFlat ∧
      pFlat.length = samples.length ∧ uniformW pFlat (pRowWidth c) ∧
      ((∀ i, hasNan (d.inputDa i) = false) → (∀ i, hasNan (d.insolDa i) = false) →
        ∀ r ∈ pFlat, hasNan r = false) := by
  unfold assembleP
  by_cases hins : c.addInsolation ≠ 0
  · rw [if_pos hins]
    have hins1 : c.addInsolation = 1 := by omega
    have hp0l : ((gatherInput d c samples).map List.flatten).length = samples.length := by
      rw [gather_flat_length, gatherInput_length]
    have hp0w := gatherInput_flat_uniform d c samples hIn
    have hcheck : ((gatherInput d c samples).map List.flatten).flatten.length =
        samples.length * (SeriesConfig.convolutionShape
          { c with addInsolation := 0, keepTimeAxis := true }).prod := by
      rw [length_flatten_uniform _ _ hp0w, hp0l, insolReshape_prod c hrank]
    rw [if_pos hcheck]
    have hblockhead : (insolBlocksOf c d samples).headD [] =
        gatherInsol d c samples 0 := by
      unfold insolBlocksOf
      rw [if_pos hins]
      cases hs : c.sequence with
      | none => rfl
      | some q => exact headD_map_range _ q _ (hseqpos q hs)
    refine ⟨_, rfl, ?_, ?_, ?_⟩
    · rw [mergeInsol_length, hblockhead, hp0l, gatherInsol_length, min_self]
    · rw [hblockhead, insolStepLen c hrank]
      have hw : pRowWidth c = c.inputTimeSteps *
          (c.inputShapeTail.prod + (lastN c.rank c.inputShapeTail).prod) := by
        unfold pRowWidth
        rw [hins1, mul_one]
      rw [hw]
      exact mergeInsol_uniform _ _ _ _ _ hp0w
        (gatherInsol_block_shape d c samples 0 _ hInsol)
    · intro hci hcs r hr
      rw [hblockhead] at hr
      exact mergeInsol_clean _ _ _ _ (gatherInput_flat_clean d c samples hci)
        (gatherInsol_block_clean d c samples 0 hcs) r hr
  · rw [if_neg hins]
    push_neg at hins
    refine ⟨_, rfl, ?_, ?_, ?_⟩
    · rw [gather_flat_length, gatherInput_length]
    · have hw : pRowWidth c = c.inputTimeSteps * c.inputShapeTail.prod := by
        unfold pRowWidth
        rw [hins]
        simp
      rw [hw]
      exact gatherInput_flat_uniform d c samples hIn
    · intro hci _ r hr
      exact gatherInput_flat_clean d c samples hci r hr

/-- Any successful predictor assembly has at most `samples.length` rows. -/
theorem assembleP_ok_le (c : SeriesConfig) (d : SeriesData) (samples : List Nat)
    (pFlat : Mat) (h : assembleP c d samples = .ok pFlat) :
    pFlat.length ≤ samples.length := by
  unfold assembleP at h
  by_cases hins : c.addInsolation ≠ 0
  · rw [if_pos hins] at h
    simp only [] at h
    split at h
    · rename_i hcheck
      simp only [Except.ok.injEq] at h
      rw [← h, mergeInsol_length, gather_flat_length, gatherInput_length]
      omega
    · simp at h
  · rw [if_neg hins] at h
    simp only [Except.ok.injEq] at h
    rw [← h, gather_flat_length, gatherInput_length]

/-- Under well-formedness, with NaN removal disabled or — in non-sequence mode —
NaN-free data, the pipeline succeeds and the predictor and every target tensor
have first dimension equal to the requested sample count (one target tensor per
forecast step). -/
theorem seriesGenerateCore_ok_counts (c : SeriesConfig) (d : SeriesData)
    (m : ModelTransforms) (sai : Bool) (samples : List Nat)
    (wf : WellFormed c d m)
    (hclean : c.removeNan = false ∨ (c.sequence = none ∧ CleanData d)) :
    resultFirstDims (seriesGenerateCore c d m samples sai) =
      some (samples.length, List.replicate (c.sequence.getD 1) samples.length) := by
  obtain ⟨pFlat, hasm, hpl, hpw, hpcl⟩ :=
    assembleP_ok c d samples wf.hrank wf.hIn wf.hInsol wf.hins01 wf.hseqpos
  cases hs : c.sequence with
  | none =>
      have ht0l : ((gatherTargetNonSeq d c samples).map List.flatten).length =
          samples.length := by
        rw [gather_flat_length, gatherTargetNonSeq_length]
      have ht0w := gatherTargetNonSeq_flat_uniform d c samples wf.hOut
      have hmt : (seqStep c m sai pFlat
            ((gatherTargetNonSeq d c samples).map List.flatten)).1.map List.length =
            pFlat.map List.length ∧
          (seqStep c m sai pFlat
            ((gatherTargetNonSeq d c samples).map List.flatten)).2.map List.length =
            ((gatherTargetNonSeq d c samples).map List.flatten).map List.length := by
        rcases hclean with hrn | ⟨_, hcd⟩
        · exact seqStep_mapLength c m sai _ _ wf.hImp wf.hSc hrn
        · exact seqStep_mapLength_clean c m sai _ _ wf.hImp wf.hSc
            (by rw [hpl, ht0l]) (hpcl hcd.1 hcd.2.2)
            (gatherTargetNonSeq_flat_clean d c samples hcd.2.1)
      have hp2l : (seqStep c m sai pFlat
          ((gatherTargetNonSeq d c samples).map List.flatten)).1.length =
          samples.length := by
        rw [mapLength_length hmt.1, hpl]
      have hp2w := mapLength_uniform hmt.1 hpw
      have ht2l : (seqStep c m sai pFlat
          ((gatherTargetNonSeq d c samples).map List.flatten)).2.length =
          samples.length := by
        rw [mapLength_length hmt.2, ht0l]
      have ht2w := mapLength_uniform hmt.2 ht0w
      obtain ⟨pr, tA, hfmt, hprl, hprw, htAh⟩ :=
        formatPair_ok c samples.length _ _ wf.hrank wf.hrankO wf.hits wf.hots
          hp2l hp2w ht2l ht2w
      simp only [seriesGenerateCore, hasm, hs, hfmt, resultFirstDims]
      rw [packP_headD c samples.length pr hprl]
      simp only [List.map_cons, List.map_nil, htAh]
      rfl
  | some q =>
      have hrn : c.removeNan = false := by
        rcases hclean with hrn | ⟨hnone, _⟩
        · exact hrn
        · rw [hs] at hnone; cases hnone
      obtain ⟨pf, ts, hrec, hpfl, hpfw, htsl, htsh⟩ :=
        seqLoop_ok_counts c d m sai samples samples.length wf hrn rfl q 0 pFlat hpl hpw
      simp only [seriesGenerateCore, hasm, hs, hrec, resultFirstDims]
      rw [packP_headD c samples.length pf hpfl]
      have hts : ts.map (fun a => a.shape.headD 0) =
          List.replicate q samples.length := by
        rw [List.eq_replicate_iff]
        refine ⟨by rw [List.length_map, htsl], fun b hb => ?_⟩
        obtain ⟨a, ha, hab⟩ := List.mem_map.mp hb
        rw [← hab]
        exact htsh a ha
      rw [hts]
      rfl

/-- Whatever the NaN content, any batch the pipeline returns has at most the
requested number of rows in the predictor and in every target tensor. -/
theorem seriesGenerateCore_ok_bounds (c : SeriesConfig) (d : SeriesData)
    (m : ModelTransforms) (sai : Bool) (samples : List Nat)
    (hImp : PreservesShapes m.imputerT) (hSc : PreservesShapes m.scalerT) :
    ∀ r, seriesGenerateCore c d m samples sai = .ok r →
      r.p.shape.headD 0 ≤ samples.length ∧
      ∀ a ∈ r.targets, a.shape.headD 0 ≤ samples.length := by
  intro r h
  unfold seriesGenerateCore at h
  simp only [] at h
  split at h
  · exact absurd h (by simp)
  · rename_i pFlat hasm
    have hpl := assembleP_ok_le c d samples pFlat hasm
    split at h
    · -- sequence = none
      have ht0l : ((gatherTargetNonSeq d c samples).map List.flatten).length =
          samples.length := by
        rw [gather_flat_length, gatherTargetNonSeq_length]
      have hstage := seqStep_bounds c m sai pFlat
        ((gatherTargetNonSeq d c samples).map List.flatten) hImp hSc
      split at h
      · exact absurd h (by simp)
      · rename_i prt heqf
        simp only [Except.ok.injEq] at h
        subst h
        obtain ⟨hb0, hb1⟩ := formatPair_ok_bounds c samples.length _ _ prt.1 prt.2
          (by rw [← heqf]) (le_trans hstage.1 hpl)
          (le_trans hstage.2 (le_of_eq ht0l))
        refine ⟨packP_headD_le _ _ _ hb0, ?_⟩
        intro a ha
        have : a = prt.2 := by
          rcases List.mem_cons.mp ha with h1 | h2
          · exact h1
          · cases h2
        rw [this]
        exact hb1
    · -- sequence = some q
      rename_i q hs
      split at h
      · exact absurd h (by simp)
      · rename_i pfts hrec
        simp only [Except.ok.injEq] at h
        subst h
        obtain ⟨hb0, hb1⟩ := seqLoop_ok_bounds c d m sai samples samples.length
          hImp hSc rfl q 0 pFlat hpl pfts.1 pfts.2 hrec
        exact ⟨packP_headD_le _ _ _ hb0, fun a ha => hb1 a ha⟩

/-- C8: `generate([])` selects all `n_sample` valid offsets; with NaN removal
disabled it returns exactly `n_sample` rows in the predictor and in every target
tensor; whatever the NaN removal does, a returned batch never has more than
`n_sample` rows. -/
theorem c8_empty_selector_rows (c : SeriesConfig) (d : SeriesData)
    (m : ModelTransforms) (sai : Bool) (wf : WellFormed c d m) :
    seriesGenerate c d m [] sai =
      seriesGenerateCore c d m (List.range c.nSampleNat) sai ∧
    (c.removeNan = false →
      resultFirstDims (seriesGenerate c d m [] sai) =
        some (c.nSampleNat, List.replicate (c.sequence.getD 1) c.nSampleNat)) ∧
    (∀ r, seriesGenerate c d m [] sai = .ok r →
      r.p.shape.headD 0 ≤ c.nSampleNat ∧
      ∀ a ∈ r.targets, a.shape.headD 0 ≤ c.nSampleNat) := by
  have hw : seriesGenerate c d m [] sai =
      seriesGenerateCore c d m (List.range c.nSampleNat) sai := rfl
  refine ⟨hw, ?_, ?_⟩
  · intro hrn
    rw [hw]
    have h := seriesGenerateCore_ok_counts c d m sai (List.range c.nSampleNat) wf
      (Or.inl hrn)
    rwa [List.length_range] at h
  · intro r h
    rw [hw] at h
    have hb := seriesGenerateCore_ok_bounds c d m sai (List.range c.nSampleNat)
      wf.hImp wf.hSc r h
    rwa [List.length_range] at hb

/-- Concrete flat-mode configuration with `n_sample = 3` for witnesses. -/
def cfgC8 : SeriesConfig :=
  { totalSamples := 4, inputShapeTail := [1], outputShapeTail := [1],
    insolShapeTail := [1], rank := 1, inputTimeSteps := 1, outputTimeSteps := 1,
    sequence := none, interval := 1, addInsolation := 0, batchSize := 2,
    removeNan := false, isConvolutional := false, keepTimeAxis := false }

/-- NaN-free data for the C8 witness. -/
def dataC8 : SeriesData :=
  { inputDa := fun i => [some i], outputDa := fun i => [some i],
    insolDa := fun i => [some i] }

theorem wfC8 : WellFormed cfgC8 dataC8 identityTransforms :=
  ⟨by decide, by decide, by decide, by decide, fun _ => rfl, fun _ => rfl,
    fun _ => rfl, fun _ _ => ⟨rfl, rfl⟩, fun _ _ => ⟨rfl, rfl⟩, by decide,
    by intro q hq; cases hq⟩

/-- C8 witness: the concrete generator returns the full `n_sample = 3` rows on
an empty selector. -/
theorem c8_empty_selector_rows_witness :
    cfgC8.removeNan = false ∧
    resultFirstDims (seriesGenerate cfgC8 dataC8 identityTransforms [] true) =
      some (cfgC8.nSampleNat, List.replicate 1 cfgC8.nSampleNat) :=
  ⟨rfl, (c8_empty_selector_rows cfgC8 dataC8 identityTransforms true wfC8).2.1 rfl⟩

/-- C6 (amended form): under the constructor assertions, a valid sample count,
conformant data, and no NaN-row removal taking effect (NaN removal disabled, or,
in non-sequence mode, NaN-free data), every batch `i < len` returned by
`__getitem__` has `min(batch_size, n_sample - i*batch_size)` rows in the
predictor and in every target tensor; this count is at most `batch_size` and
equals `batch_size` for every batch except possibly the last. -/
theorem c6_amended_batch_dims (c : SeriesConfig) (d : SeriesData)
    (m : ModelTransforms) (indices : List Nat) (i : Nat)
    (wf : WellFormed c d m) (hbs : 0 < c.batchSize) (hn : 0 ≤ c.nSampleInt)
    (hlen : indices.length = c.nSampleNat) (hi : i < c.seriesLenNat)
    (hclean : c.removeNan = false ∨ (c.sequence = none ∧ CleanData d)) :
    resultFirstDims (seriesGetitem c d m indices (i : Int)) =
      some (min c.batchSize (c.nSampleNat - i * c.batchSize),
        List.replicate (c.sequence.getD 1)
          (min c.batchSize (c.nSampleNat - i * c.batchSize))) ∧
    min c.batchSize (c.nSampleNat - i * c.batchSize) ≤ c.batchSize ∧
    (i + 1 < c.seriesLenNat →
      min c.batchSize (c.nSampleNat - i * c.batchSize) = c.batchSize) := by
  have hLeq := seriesLenNat_eq c hn hbs
  have himul : i * c.batchSize < c.nSampleNat := by
    rw [hLeq] at hi
    have h1 : i + 1 ≤ (c.nSampleNat + c.batchSize - 1) / c.batchSize := hi
    have h2 : (i + 1) * c.batchSize ≤ c.nSampleNat + c.batchSize - 1 :=
      (Nat.le_div_iff_mul_le hbs).mp h1
    have h3 : (i + 1) * c.batchSize = i * c.batchSize + c.batchSize :=
      Nat.succ_mul _ _
    omega
  have hbatch : batchIndexes indices c.batchSize (i : Int) =
      (indices.drop (i * c.batchSize)).take c.batchSize :=
    batchIndexes_nat indices c.batchSize i
  have hblen : ((indices.drop (i * c.batchSize)).take c.batchSize).length =
      min c.batchSize (c.nSampleNat - i * c.batchSize) := by
    rw [List.length_take, List.length_drop, hlen]
  have hkpos : 0 < min c.batchSize (c.nSampleNat - i * c.batchSize) :=
    lt_min hbs (by omega)
  have hIntNonneg : ¬((i : Int) < 0) := by omega
  have hlenIntNonneg : (0 : Int) ≤ c.seriesLenInt := by
    rw [seriesLenInt_eq_natCeil c hn hbs]
    positivity
  have hguard : ¬((i : Int) > c.seriesLenInt) := by
    have hx : (i : Int) < ((c.seriesLenNat : Nat) : Int) := by exact_mod_cast hi
    unfold SeriesConfig.seriesLenNat at hx
    rw [Int.toNat_of_nonneg hlenIntNonneg] at hx
    omega
  have hred : seriesGetitem c d m indices (i : Int) =
      seriesGenerate c d m (batchIndexes indices c.batchSize (i : Int)) true := by
    simp only [seriesGetitem]
    rw [if_neg hIntNonneg, if_neg hguard]
  have hne : ¬(((indices.drop (i * c.batchSize)).take c.batchSize).length = 0) := by
    rw [hblen]
    omega
  have hcore : seriesGenerate c d m (batchIndexes indices c.batchSize (i : Int)) true =
      seriesGenerateCore c d m ((indices.drop (i * c.batchSize)).take c.batchSize)
        true := by
    rw [hbatch]
    unfold seriesGenerate
    rw [if_neg hne]
  have hcounts := seriesGenerateCore_ok_counts c d m true
    ((indices.drop (i * c.batchSize)).take c.batchSize) wf hclean
  refine ⟨?_, min_le_left _ _, ?_⟩
  · rw [hred, hcore, hcounts, hblen]
  · intro hi1
    rw [hLeq] at hi1
    have h2 : (i + 2) * c.batchSize ≤ c.nSampleNat + c.batchSize - 1 :=
      (Nat.le_div_iff_mul_le hbs).mp hi1
    have e1 : (i + 2) * c.batchSize = i * c.batchSize + c.batchSize + c.batchSize := by
      rw [show i + 2 = (i + 1) + 1 from rfl, Nat.succ_mul, Nat.succ_mul]
    exact min_eq_left (by omega)

/-- Configuration for the C6 counterexample: `n_sample = 3`, two batches of
width 2, NaN removal on, dense non-recurrent model. -/
def cfgC6 : SeriesConfig :=
  { totalSamples := 4, inputShapeTail := [1], outputShapeTail := [1],
    insolShapeTail := [1], rank := 1, inputTimeSteps := 1, outputTimeSteps := 1,
    sequence := none, interval := 1, addInsolation := 0, batchSize := 2,
    removeNan := true, isConvolutional := false, keepTimeAxis := false }

/-- Data with a NaN in the predictor observation of sample 0. -/
def dataC6 : SeriesData :=
  { inputDa := fun i => if i = 0 then [none] else [some i],
    outputDa := fun i => [some i], insolDa := fun i => [some i] }

/-- C6 counterexample: with NaN removal enabled and a NaN in sample 0, batch 0
of 2 (thus not the last batch) comes back with only 1 row, not
`batch_size = 2` — and the claim asserts equality for every non-final batch of
every generator. -/
theorem c6_counterexample :
    cfgC6.seriesLenInt = 2 ∧ cfgC6.batchSize = 2 ∧
    resultFirstDims (seriesGetitem cfgC6 dataC6 identityTransforms
      (cfgC6.initIndices) 0) = some (1, [1]) := by
  refine ⟨by decide, by decide, by decide⟩

/-- Witness configuration for the amended C6 (NaN removal disabled). -/
def cfgC6W : SeriesConfig :=
  { totalSamples := 4, inputShapeTail := [1], outputShapeTail := [1],
    insolShapeTail := [1], rank := 1, inputTimeSteps := 1, outputTimeSteps := 1,
    sequence := none, interval := 1, addInsolation := 0, batchSize := 2,
    removeNan := false, isConvolutional := false, keepTimeAxis := false }

/-- NaN-free data for the C6 witness. -/
def dataC6W : SeriesData :=
  { inputDa := fun i => [some i], outputDa := fun i => [some i],
    insolDa := fun i => [some i] }

theorem wfC6W : WellFormed cfgC6W dataC6W identityTransforms :=
  ⟨by decide, by decide, by decide, by decide, fun _ => rfl, fun _ => rfl,
    fun _ => rfl, fun _ _ => ⟨rfl, rfl⟩, fun _ _ => ⟨rfl, rfl⟩, by decide,
    by intro q hq; cases hq⟩

/-- C6 witness: on the clean concrete generator, batch 0 of 2 has exactly
`min(2, 3 - 0·2) = 2` rows in predictor and target. -/
theorem c6_amended_batch_dims_witness :
    0 < cfgC6W.batchSize ∧
    resultFirstDims (seriesGetitem cfgC6W dataC6W identityTransforms
        (cfgC6W.initIndices) ((0 : Nat) : Int)) =
      some (min cfgC6W.batchSize (cfgC6W.nSampleNat - 0 * cfgC6W.batchSize),
        List.replicate (cfgC6W.sequence.getD 1)
          (min cfgC6W.batchSize (cfgC6W.nSampleNat - 0 * cfgC6W.batchSize))) :=
  ⟨by decide,
    (c6_amended_batch_dims cfgC6W dataC6W identityTransforms cfgC6W.initIndices 0
      wfC6W (by decide) (by decide) (by decide) (by decide) (Or.inl rfl)).1⟩

/-- With `scale_and_impute=False` the stage is exactly the NaN filter: the
model's transforms are never consulted. -/
theorem seqStep_false (c : SeriesConfig) (m : ModelTransforms) (p t0 : Mat) :
    seqStep c m false p t0 =
      if c.removeNan then delete_nan_samples p t0 else (p, t0) := rfl

theorem seqLoop_transform_indep (c : SeriesConfig) (d : SeriesData)
    (m m' : ModelTransforms) (samples : List Nat) (n : Nat) :
    ∀ (rem j : Nat) (p : Mat),
      seqLoop c d m false samples n j rem p =
        seqLoop c d m' false samples n j rem p := by
  intro rem
  induction rem with
  | zero => intro j p; rfl
  | succ rem ih =>
      intro j p
      simp only [seqLoop, seqStep_false, ih]

theorem seriesGenerateCore_transform_indep (c : SeriesConfig) (d : SeriesData)
    (m m' : ModelTransforms) (samples : List Nat) :
    seriesGenerateCore c d m samples false =
      seriesGenerateCore c d m' samples false := by
  simp only [seriesGenerateCore, seqStep_false,
    seqLoop_transform_indep c d m m' samples samples.length]

/-- In the dense non-recurrent layout the formatting step is the identity on the
predictor and packages the target as a flat 2-D tensor. -/
theorem formatPair_flat (c : SeriesConfig) (n : Nat) (p t : Mat)
    (hconv : c.isConvolutional = false) (hkt : c.keepTimeAxis = false) :
    formatPair c n p t = .ok (p, from2D t) := by
  unfold formatPair
  rw [if_neg (by simp [hconv]), if_neg (by simp [hkt])]

theorem packP_flat (c : SeriesConfig) (n : Nat) (p : Mat)
    (hconv : c.isConvolutional = false) (hkt : c.keepTimeAxis = false) :
    packP c n p = from2D p := by
  unfold packP
  rw [if_neg (by simp [hconv]), if_neg (by simp [hkt])]

theorem seqLoop_flat_targets (c : SeriesConfig) (d : SeriesData)
    (m : ModelTransforms) (sai : Bool) (samples : List Nat) (n : Nat)
    (hconv : c.isConvolutional = false) (hkt : c.keepTimeAxis = false) :
    ∀ (rem j : Nat) (p pf : Mat) (ts : List NDArr),
      seqLoop c d m sai samples n j rem p = .ok (pf, ts) →
      ∀ a ∈ ts, a.shape.length = 2 := by
  intro rem
  induction rem with
  | zero =>
      intro j p pf ts h a ha
      unfold seqLoop at h
      simp only [Except.ok.injEq, Prod.mk.injEq] at h
      rw [← h.2] at ha
      cases ha
  | succ rem ih =>
      intro j p pf ts h a ha
      unfold seqLoop at h
      rw [formatPair_flat c n _ _ hconv hkt] at h
      simp only [] at h
      split at h
      · exact absurd h (by simp)
      · rename_i pfts hrec
        simp only [Except.ok.injEq, Prod.mk.injEq] at h
        obtain ⟨h1, h2⟩ := h
        rw [← h2] at ha
        rcases List.mem_cons.mp ha with hm1 | hm2
        · rw [hm1]; rfl
        · exact ih (j + 1) _ pfts.1 pfts.2 hrec a hm2

/-- In the dense non-recurrent layout every returned tensor is flat 2-D. -/
theorem seriesGenerateCore_flat_2d (c : SeriesConfig) (d : SeriesData)
    (m : ModelTransforms) (sai : Bool) (samples : List Nat)
    (hconv : c.isConvolutional = false) (hkt : c.keepTimeAxis = false) :
    ∀ r, seriesGenerateCore c d m samples sai = .ok r →
      r.p.shape.length = 2 ∧ ∀ a ∈ r.targets, a.shape.length = 2 := by
  intro r h
  unfold seriesGenerateCore at h
  simp only [] at h
  split at h
  · exact absurd h (by simp)
  · rename_i pFlat hasm
    split at h
    · rw [formatPair_flat c samples.length _ _ hconv hkt] at h
      simp only [] at h
      simp only [Except.ok.injEq] at h
      subst h
      constructor
      · show (packP c samples.length _).shape.length = 2
        rw [packP_flat c _ _ hconv hkt]
        rfl
      · intro a ha
        rcases List.mem_cons.mp ha with h1 | h2
        · rw [h1]; rfl
        · cases h2
    · rename_i q hs
      split at h
      · exact absurd h (by simp)
      · rename_i pfts hrec
        simp only [Except.ok.injEq] at h
        subst h
        constructor
        · rw [packP_flat c _ _ hconv hkt]; rfl
        · exact fun a ha => seqLoop_flat_targets c d m sai samples samples.length
            hconv hkt q 0 pFlat pfts.1 pfts.2 hrec a ha

/-- C7 (amended form): `generate(..., scale_and_impute=False)` never consults
the model's scaler or imputer — the result is identical for any two model
collaborators — but the convolutional / time-axis reshape is still applied
according to the model's mode; the returned predictor and target arrays are flat
(2-dimensional) exactly in the dense non-recurrent layout. -/
theorem c7_amended_unscaled_not_flat (c : SeriesConfig) (d : SeriesData)
    (m m' : ModelTransforms) (samples0 : List Nat) :
    seriesGenerate c d m samples0 false = seriesGenerate c d m' samples0 false ∧
    (c.isConvolutional = false → c.keepTimeAxis = false →
      ∀ r, seriesGenerate c d m samples0 false = .ok r →
        r.p.shape.length = 2 ∧ ∀ a ∈ r.targets, a.shape.length = 2) := by
  constructor
  · unfold seriesGenerate
    exact seriesGenerateCore_transform_indep c d m m' _
  · intro hconv hkt r h
    unfold seriesGenerate at h
    exact seriesGenerateCore_flat_2d c d m false _ hconv hkt r h

/-- Convolutional configuration for the C7 counterexample. -/
def cfgC7 : SeriesConfig :=
  { totalSamples := 3, inputShapeTail := [1], outputShapeTail := [1],
    insolShapeTail := [1], rank := 1, inputTimeSteps := 1, outputTimeSteps := 1,
    sequence := none, interval := 1, addInsolation := 0, batchSize := 1,
    removeNan := false, isConvolutional := true, keepTimeAxis := false }

/-- Concrete data for the C7 counterexample. -/
def dataC7 : SeriesData :=
  { inputDa := fun i => [some i], outputDa := fun i => [some i],
    insolDa := fun i => [some i] }

/-- C7 counterexample: on a convolutional model, `generate([0],
scale_and_impute=False)` returns a predictor of shape `(1, 1, 1)` —
3-dimensional, reshaped to the convolution layout — not the flat 2-D array the
claim promises for every generator. -/
theorem c7_counterexample :
    cfgC7.isConvolutional = true ∧
    resultPShape (seriesGenerate cfgC7 dataC7 identityTransforms [0] false) =
      some [1, 1, 1] := by
  refine ⟨rfl, by decide⟩

/-- Flat witness configuration for the amended C7. -/
def cfgC7W : SeriesConfig :=
  { totalSamples := 3, inputShapeTail := [1], outputShapeTail := [1],
    insolShapeTail := [1], rank := 1, inputTimeSteps := 1, outputTimeSteps := 1,
    sequence := none, interval := 1, addInsolation := 0, batchSize := 1,
    removeNan := false, isConvolutional := false, keepTimeAxis := false }

/-- Concrete data for the C7 witness. -/
def dataC7W : SeriesData :=
  { inputDa := fun i => [some i], outputDa := fun i => [some i],
    insolDa := fun i => [some i] }

/-- A deliberately destructive model collaborator: if the scaler or imputer were
invoked with `scale_and_impute=False`, the result would change. -/
def mangleTransforms : ModelTransforms :=
  { imputeMissing := true, imputerT := fun _ _ => ([], []),
    scalerT := fun p t => (t, p) }

/-- C7 witness: with `scale_and_impute=False` the concrete generator returns the
same batch under the identity collaborator and under a destructive one, and the
dense non-recurrent result is 2-D. -/
theorem c7_amended_unscaled_not_flat_witness :
    cfgC7W.isConvolutional = false ∧
    seriesGenerate cfgC7W dataC7W identityTransforms [0] false =
      seriesGenerate cfgC7W dataC7W mangleTransforms [0] false ∧
    (∀ r, seriesGenerate cfgC7W dataC7W identityTransforms [0] false = .ok r →
      r.p.shape.length = 2 ∧ ∀ a ∈ r.targets, a.shape.length = 2) :=
  ⟨rfl,
    (c7_amended_unscaled_not_flat cfgC7W dataC7W identityTransforms
      mangleTransforms [0]).1,
    fun r h => (c7_amended_unscaled_not_flat cfgC7W dataC7W identityTransforms
      mangleTransforms [0]).2 rfl rfl r h⟩
